import Mathlib

/-!
Verification model of the FetchOnEventEmitter repository.

The canonical event engine is `src/src/EventEmitter.ts` (priority, `once`,
wildcard, async sequential dispatch) and the canonical request/response
correlator is the feature-complete `EventFetch` class of the repository
(`Fetch` with a `timeout = 5000` default, `onFetch`, and the response
listener installed in the constructor).

The embedding mirrors the TypeScript semantics that matter here:

* `emit` iterates the array object `this._events[event]` that is current at
  fire time.  `off` *replaces* that array with a freshly `filter`ed one, so
  an in-progress `for...of` pass, which holds the old array object, is not
  affected by unsubscription.  `on`, however, `push`es into and `sort`s the
  *same* array object in place, so a subscription performed by a handler is
  visible to the in-progress pass.  The model carries an explicit `aliased`
  flag recording whether the registry still holds the array object being
  iterated.
* handler invocations inside `emit` are modelled by a behaviour function
  mapping a handler identity to the finite list of bus operations the
  handler performs, plus an optional thrown error; the dispatch loop is
  fuelled because a handler that keeps subscribing new handlers to the key
  being dispatched makes the JavaScript loop diverge as well.
* the correlator is modelled per call: a registry flag for the call's
  `requestId` entry in `_EventToResponseHandler` and the state of the raced
  promise, with one transition derived from the constructor's response
  listener plus the resolver closure, and one from the `setTimeout`
  callback.
-/

/-- One element of a listener array: `{handler, once, priority, index}`
(fields of the entries pushed by `on` in `src/src/EventEmitter.ts`,
lines 8-27 and 70). Handlers are identified by an identity of type `H`,
mirroring function-reference identity in JavaScript. -/
structure ListenerEntry (H : Type) where
  handler : H
  once : Bool
  priority : Int
  index : Nat
deriving DecidableEq, Repr

/-- The comparator of `src/src/EventEmitter.ts` lines 72-75:
`(a, b) => b.priority - a.priority`, ties broken by `a.index - b.index`.
`entryRel a b` states that `a` may stay before `b`: higher priority first,
equal priorities ordered by ascending insertion index. -/
def entryRel {H : Type} (a b : ListenerEntry H) : Prop :=
  b.priority < a.priority ∨ (a.priority = b.priority ∧ a.index ≤ b.index)

instance {H : Type} : DecidableRel (entryRel (H := H)) := by
  intro a b
  unfold entryRel
  exact inferInstance

instance {H : Type} : IsTotal (ListenerEntry H) (entryRel (H := H)) := by
  constructor
  intro a b
  unfold entryRel
  omega

instance {H : Type} : IsTrans (ListenerEntry H) (entryRel (H := H)) := by
  constructor
  intro a b c hab hbc
  unfold entryRel at *
  omega

/-- Model of `Array.prototype.sort` with the comparator above.  On arrays
whose `(priority, index)` pairs are distinct the comparator is a total
order, so every correct sort produces the same output; we use insertion
sort. -/
def sortEntries {H : Type} (l : List (ListenerEntry H)) : List (ListenerEntry H) :=
  List.insertionSort entryRel l

/-- Association-list lookup, modelling `this._events[k]` (a present key maps
to its listener array; an absent key yields `undefined`). -/
def evLookup {K V : Type} [DecidableEq K] : List (K × V) → K → Option V
  | [], _ => none
  | p :: rest, k => if p.1 = k then some p.2 else evLookup rest k

/-- Association-list update, modelling assignment `this._events[k] = v`. -/
def evSet {K V : Type} [DecidableEq K] : List (K × V) → K → V → List (K × V)
  | [], k, v => [(k, v)]
  | p :: rest, k, v => if p.1 = k then (k, v) :: rest else p :: evSet rest k v

/-- Association-list removal, modelling `delete this._events[k]`. -/
def evDelete {K V : Type} [DecidableEq K] : List (K × V) → K → List (K × V)
  | [], _ => []
  | p :: rest, k => if p.1 = k then evDelete rest k else p :: evDelete rest k

/-- The mutable state of an `EventEmitter` instance
(`src/src/EventEmitter.ts` lines 4-27): the insertion-index counter, the
per-key listener arrays, and the wildcard listener array. -/
structure EventEmitter (K H : Type) where
  _indexCounter : Nat
  _events : List (K × List (ListenerEntry H))
  _wildcard : List (ListenerEntry H)
deriving DecidableEq, Repr

/-- The first argument of `on`: either the wildcard marker `"*"` or one or
more event keys (`events: EventKey | EventKey[] | "*"`; a single key is
normalised to a one-element array at line 66). -/
inductive OnTarget (K : Type) where
  | star
  | keys (ks : List K)
deriving DecidableEq, Repr

namespace EventEmitter

/-- A fresh emitter (`constructor() {}` with the field defaults). -/
def empty {K H : Type} : EventEmitter K H := ⟨0, [], []⟩

/-- The listener array for key `k`, an empty list when the key is absent. -/
def entriesOf {K H : Type} [DecidableEq K] (s : EventEmitter K H) (k : K) :
    List (ListenerEntry H) :=
  (evLookup s._events k).getD []

/-- `options.priority` defaults to `10` (`src/src/EventEmitter.ts` line 61). -/
def onDefaultPriority : Int := 10

/-- `options.once` defaults to `false` (`src/src/EventEmitter.ts` line 61). -/
def onDefaultOnce : Bool := false

/-- The per-key body of `on`'s `forEach` (`src/src/EventEmitter.ts`
lines 68-76): create the key's array if absent, push the entry, and
re-sort by (priority desc, index asc). -/
def pushEntry {K H : Type} [DecidableEq K] (acc : EventEmitter K H) (e : K)
    (ent : ListenerEntry H) : EventEmitter K H :=
  { acc with
    _events := evSet acc._events e
      (sortEntries ((evLookup acc._events e).getD [] ++ [ent])) }

/-- `on` (`src/src/EventEmitter.ts` lines 56-79 and `_onAll` lines 82-94):
allocate one insertion index, then either push-and-sort into the wildcard
array or push-and-sort into the array of every listed key.  (The name `on`
itself is a reserved notation in Lean, hence the prime.) -/
def on' {K H : Type} [DecidableEq K] (s : EventEmitter K H) (tgt : OnTarget K)
    (h : H) (once : Bool) (priority : Int) : EventEmitter K H :=
  let index := s._indexCounter
  let s1 := { s with _indexCounter := s._indexCounter + 1 }
  match tgt with
  | .star =>
    { s1 with _wildcard := sortEntries (s1._wildcard ++ [⟨h, once, priority, index⟩]) }
  | .keys ks =>
    ks.foldl (fun acc e => pushEntry acc e ⟨h, once, priority, index⟩) s1

/-- `off` for a named key (`src/src/EventEmitter.ts` lines 124-144): with a
handler, replace the key's array by a `filter`ed fresh array; without one,
delete the key; if the key is absent, do nothing. -/
def off {K H : Type} [DecidableEq K] [DecidableEq H] (s : EventEmitter K H)
    (event : K) (h : Option H) : EventEmitter K H :=
  match evLookup s._events event, h with
  | none, _ => s
  | some l, some hd =>
    { s with _events := evSet s._events event (l.filter (fun e => decide (e.handler ≠ hd))) }
  | some _, none => { s with _events := evDelete s._events event }

/-- `_offAll` (`src/src/EventEmitter.ts` lines 97-105): replace the wildcard
array by a `filter`ed fresh array. -/
def _offAll {K H : Type} [DecidableEq H] (s : EventEmitter K H) (h : H) :
    EventEmitter K H :=
  { s with _wildcard := s._wildcard.filter (fun e => decide (e.handler ≠ h)) }

/-- `off("*", handler?)` (`src/src/EventEmitter.ts` lines 129-133). -/
def offStar {K H : Type} [DecidableEq H] (s : EventEmitter K H) (h : Option H) :
    EventEmitter K H :=
  match h with
  | some hd => s._offAll hd
  | none => { s with _wildcard := [] }

/-- The unsubscribe closure returned by `on` for a key list
(`src/src/EventEmitter.ts` line 78):
`() => eventArray.forEach((event) => this.off(event, handler))`. -/
def unsubscribeOn {K H : Type} [DecidableEq K] [DecidableEq H]
    (s : EventEmitter K H) (ks : List K) (h : H) : EventEmitter K H :=
  ks.foldl (fun acc e => acc.off e (some h)) s

end EventEmitter

/-- `{...data, eventTag: event}`: the object passed to every handler by
`emit` (`src/src/EventEmitter.ts` lines 163 and 170). -/
structure TaggedData (D K : Type) where
  data : D
  eventTag : K
deriving DecidableEq, Repr

/-- A bus operation a handler may perform on its own emitter while it is
being dispatched: subscribe, unsubscribe from a named key, or unsubscribe
from the wildcard class. -/
inductive BusOp (K H : Type) where
  | sub (tgt : OnTarget K) (h : H) (once : Bool) (priority : Int)
  | unsub (event : K) (h : Option H)
  | unsubStar (h : Option H)
deriving DecidableEq, Repr

/-- The behaviour of a handler during one invocation: the bus operations it
performs, in order, and—after performing them—an error it throws (its
returned promise rejecting is the same for `await handler(...)`), or `none`
when it returns normally. -/
structure HandlerBeh (K H : Type) where
  ops : List (BusOp K H)
  err : Option String
deriving DecidableEq, Repr

/-- A handler that performs no bus operations and returns normally. -/
def pureBeh {K H : Type} : HandlerBeh K H := ⟨[], none⟩

/-- Which of the two loops of `emit` is running. -/
inductive DispatchPhase where
  | named
  | wild
deriving DecidableEq, Repr

/-- The state of an in-progress `for...of` pass inside `emit`: the emitter
state, the contents of the array object being iterated, whether the
registry (`this._events[key]` in the named phase, `this._wildcard` in the
wildcard phase) still holds that very array object, the key being emitted,
and the phase. -/
structure DispatchCtx (K H : Type) where
  st : EventEmitter K H
  iter : List (ListenerEntry H)
  aliased : Bool
  key : K
  phase : DispatchPhase
deriving DecidableEq, Repr

/-- Effect of `on` on one key performed mid-dispatch: the registry array for
that key is pushed into and sorted in place, so when the named phase is
iterating exactly that array object the iterated contents change too. -/
def subOneKey {K H : Type} [DecidableEq K] (c : DispatchCtx K H) (e : K)
    (ent : ListenerEntry H) : DispatchCtx K H :=
  let newArr := sortEntries ((evLookup c.st._events e).getD [] ++ [ent])
  let st' := { c.st with _events := evSet c.st._events e newArr }
  if c.phase = DispatchPhase.named ∧ e = c.key ∧ c.aliased = true then
    { c with st := st', iter := newArr }
  else
    { c with st := st' }

/-- Execute one bus operation performed by a handler mid-dispatch, with the
aliasing consequences of the source: `on` mutates the existing array object
in place (visible to an in-progress pass over it), while `off`/`_offAll`
assign a fresh array, breaking the alias with the iterated object. -/
def runOp {K H : Type} [DecidableEq K] [DecidableEq H] (c : DispatchCtx K H)
    (op : BusOp K H) : DispatchCtx K H :=
  match op with
  | .sub tgt h once priority =>
    let index := c.st._indexCounter
    let c1 : DispatchCtx K H :=
      { c with st := { c.st with _indexCounter := c.st._indexCounter + 1 } }
    match tgt with
    | .star =>
      let newW := sortEntries (c1.st._wildcard ++ [⟨h, once, priority, index⟩])
      let st' := { c1.st with _wildcard := newW }
      if c1.phase = DispatchPhase.wild ∧ c1.aliased = true then
        { c1 with st := st', iter := newW }
      else
        { c1 with st := st' }
    | .keys ks => ks.foldl (fun acc e => subOneKey acc e ⟨h, once, priority, index⟩) c1
  | .unsub event h =>
    let st' := c.st.off event h
    if c.phase = DispatchPhase.named ∧ event = c.key then
      match evLookup c.st._events event with
      | none => { c with st := st' }
      | some _ => { c with st := st', aliased := false }
    else
      { c with st := st' }
  | .unsubStar h =>
    let st' := c.st.offStar h
    if c.phase = DispatchPhase.wild then
      { c with st := st', aliased := false }
    else
      { c with st := st' }

/-- Execute all the bus operations of one handler invocation, in order. -/
def runOps {K H : Type} [DecidableEq K] [DecidableEq H] (c : DispatchCtx K H)
    (ops : List (BusOp K H)) : DispatchCtx K H :=
  ops.foldl runOp c

/-- Result of one iteration of a `for...of` loop of `emit`. -/
inductive StepResult (K H : Type) where
  | finished
  | stepped (c : DispatchCtx K H) (invoked : H)
  | thrown (c : DispatchCtx K H) (invoked : H) (e : String)

/-- One iteration of a loop of `emit` (`src/src/EventEmitter.ts`
lines 162-165 and 169-172): read the entry at the current index of the
iterated array, invoke its handler (performing the handler's bus
operations; a thrown error aborts here, before the `once` bookkeeping),
then, if the entry is marked `once`, remove the handler via
`this.off(event, handler)` in the named phase or `this._offAll(handler)`
in the wildcard phase — both of which replace the registry array before
the next listener runs. -/
def dispatchStep {K H : Type} [DecidableEq K] [DecidableEq H]
    (beh : H → HandlerBeh K H) (c : DispatchCtx K H) (i : Nat) : StepResult K H :=
  if hlt : i < c.iter.length then
    let ent := c.iter.get ⟨i, hlt⟩
    let b := beh ent.handler
    let c1 := runOps c b.ops
    match b.err with
    | some e => .thrown c1 ent.handler e
    | none =>
      if ent.once then
        match c.phase with
        | .named => .stepped (runOp c1 (.unsub c.key (some ent.handler))) ent.handler
        | .wild => .stepped (runOp c1 (.unsubStar (some ent.handler))) ent.handler
      else
        .stepped c1 ent.handler
  else
    .finished

/-- How one loop of `emit` ended: normally, by a handler throwing, or—only
in the model—by fuel exhaustion (the corresponding JavaScript loop
diverges when handlers keep growing the iterated array). -/
inductive PhaseStatus where
  | done
  | threw (e : String)
  | fuelOut
deriving DecidableEq, Repr

/-- Run one loop of `emit` from index `i`, invoking each handler of the
iterated array sequentially and recording, for every invocation, the
handler and the `{...data, eventTag}` object it receives.  A thrown error
stops the loop at once. -/
def runPhase {K H D : Type} [DecidableEq K] [DecidableEq H]
    (beh : H → HandlerBeh K H) (payload : TaggedData D K) :
    Nat → DispatchCtx K H → Nat →
    DispatchCtx K H × List (H × TaggedData D K) × PhaseStatus
  | 0, c, _ => (c, [], .fuelOut)
  | Nat.succ fuel, c, i =>
    match dispatchStep beh c i with
    | .finished => (c, [], .done)
    | .thrown c1 hd e => (c1, [(hd, payload)], .threw e)
    | .stepped c1 hd =>
      let r := runPhase beh payload fuel c1 (i + 1)
      (r.1, (hd, payload) :: r.2.1, r.2.2)

/-- `emit` (`src/src/EventEmitter.ts` lines 156-173): run the named loop
over the array object `this._events[event]` current at fire time, and—if
no handler threw—run the wildcard loop over the array object
`this._wildcard` current when that second loop starts.  A thrown error
propagates to the caller of `emit` and skips everything after it. -/
def emit {K H D : Type} [DecidableEq K] [DecidableEq H]
    (beh : H → HandlerBeh K H) (event : K) (data : D) (fuel : Nat)
    (s : EventEmitter K H) :
    EventEmitter K H × List (H × TaggedData D K) × PhaseStatus :=
  let payload : TaggedData D K := ⟨data, event⟩
  let cN : DispatchCtx K H :=
    ⟨s, (evLookup s._events event).getD [], true, event, .named⟩
  let rN := runPhase beh payload fuel cN 0
  match rN.2.2 with
  | .done =>
    let cW : DispatchCtx K H := ⟨rN.1.st, rN.1.st._wildcard, true, event, .wild⟩
    let rW := runPhase beh payload fuel cW 0
    (rW.1.st, rN.2.1 ++ rW.2.1, rW.2.2)
  | st => (rN.1.st, rN.2.1, st)

/-- A sequence of `emit` calls, concatenating their invocation traces. -/
def emitSeq {K H D : Type} [DecidableEq K] [DecidableEq H]
    (beh : H → HandlerBeh K H) (fuel : Nat) :
    EventEmitter K H → List (K × D) →
    EventEmitter K H × List (H × TaggedData D K)
  | s, [] => (s, [])
  | s, (k, d) :: rest =>
    let r := emit beh k d fuel s
    let r2 := emitSeq beh fuel r.1 rest
    (r2.1, r.2.1 ++ r2.2)

/-- One `on`-call specification, for describing states built purely by
subscriptions. -/
structure SubSpec (K H : Type) where
  tgt : OnTarget K
  handler : H
  once : Bool
  priority : Int
deriving DecidableEq, Repr

/-- Apply a list of `on` calls in order, starting from a given state. -/
def applySubs {K H : Type} [DecidableEq K] (s : EventEmitter K H)
    (l : List (SubSpec K H)) : EventEmitter K H :=
  l.foldl (fun acc sp => acc.on' sp.tgt sp.handler sp.once sp.priority) s

/-!
## The `EventFetch` correlator

Model of the feature-complete `EventFetch` class (request/response
correlation over the two reserved events `"EventFetch:Fetch:Request"` and
`"EventFetch:Fetch:Response"`).
-/

/-- A JavaScript runtime value, as far as the correlator inspects one: the
`onFetch` wrapper tests the handler result with `=== false` and with the
truthiness coercion `!resultData`. `object` stands for any object or
array (always truthy), identified by an arbitrary tag. -/
inductive JSVal where
  | undefined
  | null
  | boolean (b : Bool)
  | number (n : Int)
  | str (s : String)
  | object (id : Nat)
deriving DecidableEq, Repr

/-- JavaScript truthiness: `undefined`, `null`, `false`, `0`, and `""` are
falsy; every object is truthy.  (`NaN` is not modelled.) -/
def JSVal.falsy : JSVal → Bool
  | .undefined => true
  | .null => true
  | .boolean b => !b
  | .number n => decide (n = 0)
  | .str s => decide (s = "")
  | .object _ => false

/-- The envelope header, `EventFetchRequestHander` in the source (the typo
is the source's): `{success, message, requestId, apiKey}`. -/
structure EventFetchRequestHander (ApiKey : Type) where
  success : Bool
  message : String
  requestId : String
  apiKey : ApiKey
deriving DecidableEq, Repr

/-- `userInfo` of a request envelope: `{requesterId, remoteId}`. -/
structure RequestUserInfo where
  requesterId : String
  remoteId : String
deriving DecidableEq, Repr

/-- `userInfo` of a response envelope: `{requesterId, replayerId}` (the
source spells the replier role `replayerId`; the spec calls it
`replierId`). -/
structure ResponseUserInfo where
  requesterId : String
  replayerId : String
deriving DecidableEq, Repr

/-- A request envelope, `EventFetchRequestDataFormat<T, ApiKey>`. -/
structure EventFetchRequestDataFormat (T ApiKey : Type) where
  data : T
  header : EventFetchRequestHander ApiKey
  userInfo : RequestUserInfo
deriving DecidableEq, Repr

/-- A response envelope, `EventFetchResponseDataFormat<T, ApiKey>`. -/
structure EventFetchResponseDataFormat (T ApiKey : Type) where
  data : T
  header : EventFetchRequestHander ApiKey
  userInfo : ResponseUserInfo
deriving DecidableEq, Repr

/-- The request envelope built by `Fetch` (source lines 343-358): constant
`success: true` and `message: ""`, the fresh `requestId`, the called
`apiKey`, `requesterId = this._selfId` and the chosen `remoteId`. -/
def buildRequestData {T ApiKey : Type} (selfId requestId : String) (api : ApiKey)
    (params : T) (remoteId : String) : EventFetchRequestDataFormat T ApiKey :=
  { data := params
    header := { success := true, message := "", requestId := requestId, apiKey := api }
    userInfo := { requesterId := selfId, remoteId := remoteId } }

/-- The response envelope built by the `onFetch` wrapper (source
lines 431-446): the handler's result as `data`, constant `success: true`
and `message: ""`, `requestId` and `apiKey` taken over from the request,
`requesterId` copied from the request, `replayerId = this._selfId`. -/
def buildResponseData {T T0 ApiKey : Type} (selfId : String) (api : ApiKey)
    (resultData : T) (val : EventFetchRequestDataFormat T0 ApiKey) :
    EventFetchResponseDataFormat T ApiKey :=
  { data := resultData
    header := { success := true, message := ""
                requestId := val.header.requestId, apiKey := api }
    userInfo := { requesterId := val.userInfo.requesterId, replayerId := selfId } }

/-- `Fetch`'s `timeout` parameter default (source line 311:
`timeout: number = 5000`). -/
def fetchDefaultTimeout : Nat := 5000

/-- The listener the `onFetch` wrapper registers on the request event
(source lines 413-450), run on one incoming request envelope: drop the
request unless `header.apiKey` is the registered key and
`userInfo.remoteId` is this instance (both silently); then
`await handler(val)` — a throw rejects the wrapper's promise, which the
dispatching `emit` awaits, so it surfaces as `.error`; an explicit `false`
or any falsy result sends no response; otherwise the response envelope is
built and fired. -/
def onFetchListenerRun {T ApiKey : Type} [DecidableEq ApiKey] (selfId : String)
    (api : ApiKey)
    (handler : EventFetchRequestDataFormat T ApiKey → Except String JSVal)
    (val : EventFetchRequestDataFormat T ApiKey) :
    Except String (Option (EventFetchResponseDataFormat JSVal ApiKey)) :=
  if val.header.apiKey ≠ api then .ok none
  else if val.userInfo.remoteId ≠ selfId then .ok none
  else
    match handler val with
    | .error e => .error e
    | .ok resultData =>
      if resultData = JSVal.boolean false then .ok none
      else if resultData.falsy then .ok none
      else .ok (some (buildResponseData selfId api resultData val))

/-- The structured rejection value of a timed-out call:
`{code: "TIMEOUT", message: "Request timed out"}` (source line 319). -/
structure FetchError where
  code : String
  message : String
deriving DecidableEq, Repr

/-- `{ code: "TIMEOUT", message: "Request timed out" }`. -/
def timeoutError : FetchError := { code := "TIMEOUT", message := "Request timed out" }

/-- The state of the promise returned by `Fetch` — the race of the request
promise against the timeout promise (source line 364). -/
inductive FetchOutcome (ApiKey : Type) where
  | pending
  | resolved (v : EventFetchResponseDataFormat JSVal ApiKey)
  | rejected (e : FetchError)
deriving DecidableEq, Repr

/-- The per-call state of one `Fetch` invocation: whether
`_EventToResponseHandler` still holds the entry keyed by this call's
`requestId`, and the state of the raced promise. -/
structure CallState (ApiKey : Type) where
  registered : Bool
  outcome : FetchOutcome ApiKey
deriving DecidableEq, Repr

/-- Delivery of one response envelope to this call: the response listener
installed by the constructor (source lines 246-254) looks the envelope's
`header.requestId` up in `_EventToResponseHandler` — a hit needs the entry
to still be present and the id to match the call's — and, if it hits, runs
the resolver closure of `Fetch` (source lines 329-341): re-check the
`requestId`, require `userInfo.replayerId` to be the addressed `remoteId`
and `userInfo.requesterId` to be this instance, then delete the registry
entry and resolve the request promise (a no-op if the promise already
settled, as in JavaScript). -/
def deliverResponse {ApiKey : Type} (requestId remoteId selfId : String)
    (st : CallState ApiKey) (v : EventFetchResponseDataFormat JSVal ApiKey) :
    CallState ApiKey :=
  if st.registered = true ∧ v.header.requestId = requestId then
    if v.header.requestId ≠ requestId then st
    else if v.userInfo.replayerId ≠ remoteId then st
    else if v.userInfo.requesterId ≠ selfId then st
    else
      { registered := false
        outcome := match st.outcome with
                   | .pending => .resolved v
                   | o => o }
  else st

/-- The `setTimeout` callback of `Fetch` (source lines 316-321), which
always fires after `timeout` milliseconds (the timer is never cleared):
delete the registry entry — a no-op when the resolver already removed
it — and reject the timeout promise, which settles the raced promise with
`timeoutError` only when it is still pending. -/
def fireTimeout {ApiKey : Type} (st : CallState ApiKey) : CallState ApiKey :=
  { registered := false
    outcome := match st.outcome with
               | .pending => .rejected timeoutError
               | o => o }

/-- One complete `Fetch` call against a single `onFetch` responder
registered on the same instance, up to (but not including) the timer
firing.  This is the deterministic microtask schedule of the source for
this situation: `Fetch` registers the resolver under a fresh `requestId`
(`registered := true`, promise pending), builds the request envelope with
the default `remoteId = this._selfId`, and fires the request event without
awaiting it; the bus dispatches it to the one `onFetch` listener; if that
listener's promise rejects, the request `emit`'s promise rejects — which
`Fetch` ignores (the component returned is only the error the *emit
caller* would see); if the listener answers, the response event is
dispatched to the constructor's response listener, which resolves the
call.  All of this happens on the microtask queue, before the macrotask
timer can fire.  Returns the call state before the timer, the response
envelope fired on the bus (if any), and the request-dispatch error (if
any). -/
def fetchRoundTrip {T ApiKey : Type} [DecidableEq ApiKey]
    (selfId requestId : String) (api : ApiKey) (params : T)
    (handler : EventFetchRequestDataFormat T ApiKey → Except String JSVal) :
    CallState ApiKey × Option (EventFetchResponseDataFormat JSVal ApiKey) × Option String :=
  let st0 : CallState ApiKey := { registered := true, outcome := .pending }
  let req := buildRequestData selfId requestId api params selfId
  match onFetchListenerRun selfId api handler req with
  | .error e => (st0, none, some e)
  | .ok none => (st0, none, none)
  | .ok (some resp) => (deliverResponse requestId selfId selfId st0 resp, some resp, none)

/-!
## Predicates used in the statements

Behaviour restrictions, state-evolution relations, and counting functions
that the theorems below quantify over.
-/

/-- A bus operation that only unsubscribes from a named key (the kind of
mid-dispatch mutation for which `off`'s array replacement keeps the
in-progress pass intact). -/
def OffOnlyOp {K H : Type} : BusOp K H → Prop
  | .unsub _ _ => True
  | _ => False

/-- A handler behaviour that performs only named-key unsubscriptions and
returns normally. -/
def OffOnly {K H : Type} (b : HandlerBeh K H) : Prop :=
  (∀ op ∈ b.ops, OffOnlyOp op) ∧ b.err = none

/-- Every handler's behaviour is `OffOnly`.  `pureBeh` behaviours satisfy
this trivially. -/
def OffOnlyAll {K H : Type} (beh : H → HandlerBeh K H) : Prop :=
  ∀ hd, OffOnly (beh hd)

/-- Emitter state `s'` evolved from `s` by removals only: every listener
array of `s'` is a sublist of the corresponding array of `s`. -/
def EmShrinks {K H : Type} [DecidableEq K] (s s' : EventEmitter K H) : Prop :=
  (∀ k l', evLookup s'._events k = some l' →
    ∃ l, evLookup s._events k = some l ∧ l'.Sublist l)
  ∧ s'._wildcard.Sublist s._wildcard

/-- No entry of the list has handler identity `h`. -/
def handlerFreeL {H : Type} (l : List (ListenerEntry H)) (h : H) : Prop :=
  ∀ ent ∈ l, ent.handler ≠ h

/-- Handler identity `h` occurs nowhere in the emitter state. -/
def handlerFree {K H : Type} [DecidableEq K] (s : EventEmitter K H) (h : H) : Prop :=
  (∀ k l, evLookup s._events k = some l → handlerFreeL l h)
  ∧ handlerFreeL s._wildcard h

/-- Number of entries of the list with handler identity `h`. -/
def countEnt {H : Type} [DecidableEq H] (l : List (ListenerEntry H)) (h : H) : Nat :=
  l.countP (fun ent => decide (ent.handler = h))

/-- Number of invocations of handler `h` recorded in a dispatch trace. -/
def countInv {K H D : Type} [DecidableEq H]
    (tr : List (H × TaggedData D K)) (h : H) : Nat :=
  tr.countP (fun x => decide (x.1 = h))

/-- Fuel that suffices for every loop the model will run from state `s`
(and, because dispatch under `OffOnly` behaviours only shrinks listener
arrays, from every later state as well). -/
def fuelOK {K H : Type} [DecidableEq K] (s : EventEmitter K H) (fuel : Nat) : Prop :=
  0 < fuel
  ∧ (∀ k l, evLookup s._events k = some l → l.length < fuel)
  ∧ s._wildcard.length < fuel

/-- The situation of a single `once` subscription of handler `h` on event
`e`: at most one entry for `h` in `e`'s array, every such entry marked
`once`, and `h` attached nowhere else (no other key and not wildcard). -/
def onceConfig {K H : Type} [DecidableEq K] [DecidableEq H]
    (s : EventEmitter K H) (e : K) (h : H) : Prop :=
  countEnt (s.entriesOf e) h ≤ 1
  ∧ (∀ ent ∈ s.entriesOf e, ent.handler = h → ent.once = true)
  ∧ (∀ k', k' ≠ e → handlerFreeL (s.entriesOf k') h)
  ∧ handlerFreeL s._wildcard h

/-- Every listener sequence of the state is sorted by the comparator order
(priority descending, insertion index ascending). -/
def AllSorted {K H : Type} [DecidableEq K] (s : EventEmitter K H) : Prop :=
  (∀ k, List.Sorted entryRel (s.entriesOf k)) ∧ List.Sorted entryRel s._wildcard

/-!
## Helper lemmas
-/

theorem evLookup_evSet_self {K V : Type} [DecidableEq K] (l : List (K × V)) (k : K) (v : V) :
    evLookup (evSet l k v) k = some v := by
  induction l with
  | nil => simp [evSet, evLookup]
  | cons p rest ih =>
    by_cases hp : p.1 = k
    · simp [evSet, evLookup, hp]
    · simp [evSet, evLookup, hp, ih]

theorem evLookup_evSet_ne {K V : Type} [DecidableEq K] (l : List (K × V)) {k k' : K} (v : V)
    (h : k' ≠ k) : evLookup (evSet l k v) k' = evLookup l k' := by
  induction l with
  | nil => simp [evSet, evLookup, Ne.symm h]
  | cons p rest ih =>
    by_cases hp : p.1 = k
    · subst hp
      simp [evSet, evLookup, Ne.symm h]
    · simp [evSet, evLookup, hp, ih]

theorem evLookup_evDelete_self {K V : Type} [DecidableEq K] (l : List (K × V)) (k : K) :
    evLookup (evDelete l k) k = none := by
  induction l with
  | nil => simp [evDelete, evLookup]
  | cons p rest ih =>
    by_cases hp : p.1 = k
    · simp [evDelete, evLookup, hp, ih]
    · simp [evDelete, evLookup, hp, ih]

theorem evLookup_evDelete_ne {K V : Type} [DecidableEq K] (l : List (K × V)) {k k' : K}
    (h : k' ≠ k) : evLookup (evDelete l k) k' = evLookup l k' := by
  induction l with
  | nil => simp [evDelete]
  | cons p rest ih =>
    by_cases hp : p.1 = k
    · subst hp
      simp [evDelete, evLookup, Ne.symm h, ih]
    · simp [evDelete, evLookup, hp, ih]

theorem evSet_lookup_self {K V : Type} [DecidableEq K] {l : List (K × V)} {k : K} {v : V}
    (h : evLookup l k = some v) : evSet l k v = l := by
  induction l with
  | nil => simp [evLookup] at h
  | cons p rest ih =>
    by_cases hp : p.1 = k
    · simp only [evLookup, if_pos hp, Option.some.injEq] at h
      subst hp
      subst h
      simp [evSet]
    · simp only [evLookup, if_neg hp] at h
      simp [evSet, hp, ih h]

theorem evLookup_mem {K V : Type} [DecidableEq K] {l : List (K × V)} {k : K} {v : V}
    (h : evLookup l k = some v) : (k, v) ∈ l := by
  induction l with
  | nil => simp [evLookup] at h
  | cons p rest ih =>
    by_cases hp : p.1 = k
    · simp only [evLookup, if_pos hp, Option.some.injEq] at h
      subst hp
      subst h
      simp
    · simp only [evLookup, if_neg hp] at h
      exact List.mem_cons_of_mem _ (ih h)

theorem sortEntries_sorted {H : Type} (l : List (ListenerEntry H)) :
    List.Sorted entryRel (sortEntries l) :=
  List.sorted_insertionSort entryRel l

theorem mem_sortEntries {H : Type} {l : List (ListenerEntry H)} {x : ListenerEntry H} :
    x ∈ sortEntries l ↔ x ∈ l :=
  List.mem_insertionSort entryRel

theorem sortEntries_length {H : Type} (l : List (ListenerEntry H)) :
    (sortEntries l).length = l.length :=
  List.length_insertionSort entryRel l

theorem emShrinks_refl {K H : Type} [DecidableEq K] (s : EventEmitter K H) :
    EmShrinks s s :=
  ⟨fun _ l' h => ⟨l', h, List.Sublist.refl l'⟩, List.Sublist.refl _⟩

theorem emShrinks_trans {K H : Type} [DecidableEq K] {s1 s2 s3 : EventEmitter K H}
    (h12 : EmShrinks s1 s2) (h23 : EmShrinks s2 s3) : EmShrinks s1 s3 := by
  obtain ⟨he12, hw12⟩ := h12
  obtain ⟨he23, hw23⟩ := h23
  refine ⟨?_, hw23.trans hw12⟩
  intro k l3 h3
  obtain ⟨l2, h2, hsub32⟩ := he23 k l3 h3
  obtain ⟨l1, h1, hsub21⟩ := he12 k l2 h2
  exact ⟨l1, h1, hsub32.trans hsub21⟩

theorem off_wildcard {K H : Type} [DecidableEq K] [DecidableEq H]
    (s : EventEmitter K H) (e : K) (hh : Option H) :
    (s.off e hh)._wildcard = s._wildcard := by
  unfold EventEmitter.off
  cases evLookup s._events e <;> cases hh <;> rfl

theorem off_shrinks {K H : Type} [DecidableEq K] [DecidableEq H]
    (s : EventEmitter K H) (e : K) (hh : Option H) :
    EmShrinks s (s.off e hh) := by
  unfold EventEmitter.off
  cases hlk : evLookup s._events e with
  | none => cases hh <;> exact emShrinks_refl s
  | some l =>
    cases hh with
    | none =>
      refine ⟨?_, List.Sublist.refl _⟩
      intro k l' h
      by_cases hk : k = e
      · subst hk
        rw [evLookup_evDelete_self] at h
        cases h
      · rw [evLookup_evDelete_ne _ hk] at h
        exact ⟨l', h, List.Sublist.refl l'⟩
    | some hd =>
      refine ⟨?_, List.Sublist.refl _⟩
      intro k l' h
      by_cases hk : k = e
      · subst hk
        rw [evLookup_evSet_self] at h
        injection h with h
        subst h
        exact ⟨l, hlk, List.filter_sublist l⟩
      · rw [evLookup_evSet_ne _ _ hk] at h
        exact ⟨l', h, List.Sublist.refl l'⟩

theorem offStar_events {K H : Type} [DecidableEq H]
    (s : EventEmitter K H) (hh : Option H) :
    (s.offStar hh)._events = s._events := by
  cases hh <;> rfl

theorem offStar_shrinks {K H : Type} [DecidableEq K] [DecidableEq H]
    (s : EventEmitter K H) (hh : Option H) :
    EmShrinks s (s.offStar hh) := by
  refine ⟨?_, ?_⟩
  · intro k l' h
    rw [offStar_events] at h
    exact ⟨l', h, List.Sublist.refl l'⟩
  · cases hh with
    | none => exact List.nil_sublist _
    | some hd => exact List.filter_sublist _

theorem runOp_unsub_fields {K H : Type} [DecidableEq K] [DecidableEq H]
    (c : DispatchCtx K H) (e : K) (hh : Option H) :
    ∃ b : Bool, runOp c (.unsub e hh) = { c with st := c.st.off e hh, aliased := b } := by
  simp only [runOp]
  split
  · cases hlk : evLookup c.st._events e
    · exact ⟨c.aliased, by simp [hlk]⟩
    · exact ⟨false, by simp [hlk]⟩
  · exact ⟨c.aliased, rfl⟩

theorem runOp_unsubStar_fields {K H : Type} [DecidableEq K] [DecidableEq H]
    (c : DispatchCtx K H) (hh : Option H) :
    ∃ b : Bool, runOp c (.unsubStar hh) = { c with st := c.st.offStar hh, aliased := b } := by
  simp only [runOp]
  split
  · exact ⟨false, rfl⟩
  · exact ⟨c.aliased, rfl⟩

theorem runOps_offOnly {K H : Type} [DecidableEq K] [DecidableEq H] :
    ∀ (ops : List (BusOp K H)) (c : DispatchCtx K H), (∀ op ∈ ops, OffOnlyOp op) →
    (runOps c ops).iter = c.iter ∧ (runOps c ops).key = c.key
    ∧ (runOps c ops).phase = c.phase
    ∧ (runOps c ops).st._wildcard = c.st._wildcard
    ∧ EmShrinks c.st (runOps c ops).st
  | [], c, _ => ⟨rfl, rfl, rfl, rfl, emShrinks_refl _⟩
  | op :: rest, c, hops => by
    have h1 : OffOnlyOp op := hops op (List.mem_cons_self _ _)
    cases op with
    | sub tgt h once priority => exact absurd h1 (by simp [OffOnlyOp])
    | unsubStar hh => exact absurd h1 (by simp [OffOnlyOp])
    | unsub e hh =>
      obtain ⟨b, heq⟩ := runOp_unsub_fields c e hh
      have hchain : runOps c (BusOp.unsub e hh :: rest) = runOps (runOp c (.unsub e hh)) rest := rfl
      obtain ⟨hi, hk, hp, hw, hs⟩ :=
        runOps_offOnly rest (runOp c (.unsub e hh))
          (fun op hop => hops op (List.mem_cons_of_mem _ hop))
      rw [hchain, heq] at *
      refine ⟨hi, hk, hp, ?_, ?_⟩
      · rw [hw]
        exact off_wildcard c.st e hh
      · exact emShrinks_trans (off_shrinks c.st e hh) hs

theorem dispatchStep_finished {K H : Type} [DecidableEq K] [DecidableEq H]
    (beh : H → HandlerBeh K H) (c : DispatchCtx K H) (i : Nat)
    (hge : ¬ i < c.iter.length) : dispatchStep beh c i = .finished := by
  simp [dispatchStep, hge]

theorem dispatchStep_offOnly {K H : Type} [DecidableEq K] [DecidableEq H]
    (beh : H → HandlerBeh K H) (c : DispatchCtx K H) (i : Nat)
    (hlt : i < c.iter.length)
    (hbi : OffOnly (beh ((c.iter.get ⟨i, hlt⟩).handler))) :
    ∃ c', dispatchStep beh c i = .stepped c' ((c.iter.get ⟨i, hlt⟩).handler)
      ∧ c'.iter = c.iter ∧ c'.key = c.key ∧ c'.phase = c.phase
      ∧ (c.phase = DispatchPhase.named → c'.st._wildcard = c.st._wildcard)
      ∧ EmShrinks c.st c'.st
      ∧ ((c.iter.get ⟨i, hlt⟩).once = true → c.phase = DispatchPhase.named →
          ∀ l, evLookup c'.st._events c.key = some l →
            handlerFreeL l ((c.iter.get ⟨i, hlt⟩).handler)) := by
  obtain ⟨hops, herr⟩ := hbi
  obtain ⟨hi1, hk1, hp1, hw1, hs1⟩ :=
    runOps_offOnly (beh (c.iter.get ⟨i, hlt⟩).handler).ops c hops
  simp only [dispatchStep, dif_pos hlt, herr]
  by_cases honce : (c.iter.get ⟨i, hlt⟩).once
  · rw [if_pos honce]
    cases hph : c.phase with
    | named =>
      obtain ⟨b, heq⟩ :=
        runOp_unsub_fields (runOps c (beh (c.iter.get ⟨i, hlt⟩).handler).ops)
          c.key (some (c.iter.get ⟨i, hlt⟩).handler)
      refine ⟨_, rfl, ?_, ?_, ?_, ?_, ?_, ?_⟩
      · rw [heq]; exact hi1
      · rw [heq]; exact hk1
      · rw [heq]; exact hp1.trans hph
      · intro _
        rw [heq]
        show ((runOps c (beh (c.iter.get ⟨i, hlt⟩).handler).ops).st.off
          c.key (some (c.iter.get ⟨i, hlt⟩).handler))._wildcard = c.st._wildcard
        rw [off_wildcard]
        exact hw1
      · rw [heq]
        exact emShrinks_trans hs1 (off_shrinks _ _ _)
      · intro _ _ l hl
        rw [heq] at hl
        revert hl
        show evLookup ((runOps c (beh (c.iter.get ⟨i, hlt⟩).handler).ops).st.off
          c.key (some (c.iter.get ⟨i, hlt⟩).handler))._events c.key = some l → _
        unfold EventEmitter.off
        cases hlk : evLookup (runOps c (beh (c.iter.get ⟨i, hlt⟩).handler).ops).st._events c.key with
        | none =>
          intro hl
          rw [hlk] at hl
          cases hl
        | some l0 =>
          intro hl
          rw [evLookup_evSet_self] at hl
          injection hl with hl
          subst hl
          intro ent hent
          rw [List.mem_filter] at hent
          simpa using hent.2
    | wild =>
      obtain ⟨b, heq⟩ :=
        runOp_unsubStar_fields (runOps c (beh (c.iter.get ⟨i, hlt⟩).handler).ops)
          (some (c.iter.get ⟨i, hlt⟩).handler)
      refine ⟨_, rfl, ?_, ?_, ?_, ?_, ?_, ?_⟩
      · rw [heq]; exact hi1
      · rw [heq]; exact hk1
      · rw [heq]; exact hp1.trans hph
      · intro hn
        exact DispatchPhase.noConfusion hn
      · rw [heq]
        exact emShrinks_trans hs1 (offStar_shrinks _ _)
      · intro _ hn
        exact DispatchPhase.noConfusion hn
  · rw [if_neg honce]
    refine ⟨_, rfl, hi1, hk1, hp1, fun _ => hw1, hs1, ?_⟩
    intro ho
    exact absurd ho honce

theorem runPhase_offOnly {K H D : Type} [DecidableEq K] [DecidableEq H]
    (beh : H → HandlerBeh K H) (payload : TaggedData D K) (hb : OffOnlyAll beh) :
    ∀ (fuel : Nat) (c : DispatchCtx K H) (i : Nat), c.iter.length - i < fuel →
    ∃ c', runPhase beh payload fuel c i
        = (c', (c.iter.drop i).map (fun ent => (ent.handler, payload)), PhaseStatus.done)
      ∧ c'.iter = c.iter ∧ c'.key = c.key ∧ c'.phase = c.phase
      ∧ (c.phase = DispatchPhase.named → c'.st._wildcard = c.st._wildcard)
      ∧ EmShrinks c.st c'.st := by
  intro fuel
  induction fuel with
  | zero => intro c i h; omega
  | succ fuel ih =>
    intro c i h
    by_cases hlt : i < c.iter.length
    · obtain ⟨c1, hstep, hi1, hk1, hp1, hw1, hs1, hrem1⟩ := dispatchStep_offOnly beh c i hlt (hb _)
      obtain ⟨c', hrun, hi2, hk2, hp2, hw2, hs2⟩ := ih c1 (i + 1) (by rw [hi1]; omega)
      refine ⟨c', ?_, ?_, ?_, ?_, ?_, ?_⟩
      · show runPhase beh payload (fuel + 1) c i = _
        rw [runPhase, hstep]
        dsimp only
        rw [hrun]
        have hdrop : c.iter.drop i = c.iter.get ⟨i, hlt⟩ :: c.iter.drop (i + 1) := by
          rw [List.get_eq_getElem]
          exact List.drop_eq_getElem_cons hlt
        rw [hi1, hdrop]
        rfl
      · rw [hi2, hi1]
      · rw [hk2, hk1]
      · rw [hp2, hp1]
      · intro hn
        rw [hw2 (by rw [hp1]; exact hn), hw1 hn]
      · exact emShrinks_trans hs1 hs2
    · have hdrop : c.iter.drop i = [] := List.drop_eq_nil_of_le (le_of_not_lt hlt)
      refine ⟨c, ?_, rfl, rfl, rfl, fun _ => rfl, emShrinks_refl _⟩
      show runPhase beh payload (fuel + 1) c i = _
      rw [runPhase, dispatchStep_finished beh c i hlt, hdrop]
      rfl

theorem emit_offOnly {K H D : Type} [DecidableEq K] [DecidableEq H]
    (beh : H → HandlerBeh K H) (k : K) (d : D) (fuel : Nat) (s : EventEmitter K H)
    (hb : OffOnlyAll beh)
    (hf1 : (s.entriesOf k).length < fuel) (hf2 : s._wildcard.length < fuel) :
    ∃ s', emit beh k d fuel s
      = (s', (s.entriesOf k).map (fun ent => (ent.handler, (⟨d, k⟩ : TaggedData D K)))
          ++ s._wildcard.map (fun ent => (ent.handler, (⟨d, k⟩ : TaggedData D K))),
         PhaseStatus.done)
      ∧ EmShrinks s s' := by
  obtain ⟨c1, hrun1, hi1, hk1, hp1, hw1, hs1⟩ :=
    runPhase_offOnly beh (⟨d, k⟩ : TaggedData D K) hb fuel
      ⟨s, (evLookup s._events k).getD [], true, k, DispatchPhase.named⟩ 0
      (by simpa [EventEmitter.entriesOf] using hf1)
  have hwild : c1.st._wildcard = s._wildcard := hw1 rfl
  obtain ⟨c2, hrun2, hi2, hk2, hp2, hw2, hs2⟩ :=
    runPhase_offOnly beh (⟨d, k⟩ : TaggedData D K) hb fuel
      ⟨c1.st, c1.st._wildcard, true, k, DispatchPhase.wild⟩ 0
      (by simpa [hwild] using hf2)
  refine ⟨c2.st, ?_, emShrinks_trans hs1 hs2⟩
  show emit beh k d fuel s = _
  simp only [emit]
  rw [hrun1]
  dsimp only
  rw [hrun2]
  dsimp only
  simp [EventEmitter.entriesOf, hwild]

/-!
## Claim theorems
-/

/-- **C1**: on an `EventFetch` instance with identity `selfId`, a responder
registered via `onFetch(api, handler)` whose handler returns the non-falsy
result `r` makes `Fetch(api, params)` with the default target resolve —
on the microtask queue, before the timeout timer — with an envelope whose
`data` is `r`, whose `header.apiKey` is `api`, whose `header.requestId`
equals the fired request envelope's `requestId`, and whose
`userInfo.requesterId` and `userInfo.replayerId` (the source's spelling of
the replier role) both equal `selfId`.  The last conjunct records that the
later timer firing leaves the already-resolved call unchanged. -/
theorem fetch_onFetch_same_instance_resolves {T ApiKey : Type} [DecidableEq ApiKey]
    (selfId requestId : String) (api : ApiKey) (params : T)
    (handler : EventFetchRequestDataFormat T ApiKey → Except String JSVal) (r : JSVal)
    (hh : handler (buildRequestData selfId requestId api params selfId) = .ok r)
    (hr : r.falsy = false) :
    fetchRoundTrip selfId requestId api params handler =
      ({ registered := false
         outcome := FetchOutcome.resolved (buildResponseData selfId api r
           (buildRequestData selfId requestId api params selfId)) },
       some (buildResponseData selfId api r (buildRequestData selfId requestId api params selfId)),
       none)
    ∧ (buildResponseData selfId api r (buildRequestData selfId requestId api params selfId)).data = r
    ∧ (buildResponseData selfId api r
        (buildRequestData selfId requestId api params selfId)).header.apiKey = api
    ∧ (buildResponseData selfId api r
        (buildRequestData selfId requestId api params selfId)).header.requestId
        = (buildRequestData selfId requestId api params selfId).header.requestId
    ∧ (buildResponseData selfId api r
        (buildRequestData selfId requestId api params selfId)).userInfo.requesterId = selfId
    ∧ (buildResponseData selfId api r
        (buildRequestData selfId requestId api params selfId)).userInfo.replayerId = selfId
    ∧ fireTimeout (fetchRoundTrip selfId requestId api params handler).1
        = (fetchRoundTrip selfId requestId api params handler).1 := by
  have hfb : ¬ (r = JSVal.boolean false) := by
    intro hbf
    rw [hbf] at hr
    simp [JSVal.falsy] at hr
  have hfalsy : ¬ (r.falsy = true) := by simp [hr]
  have hlst : onFetchListenerRun selfId api handler
      (buildRequestData selfId requestId api params selfId)
      = .ok (some (buildResponseData selfId api r
          (buildRequestData selfId requestId api params selfId))) := by
    unfold onFetchListenerRun
    rw [if_neg (fun hc => hc rfl), if_neg (fun hc => hc rfl), hh]
    dsimp only
    rw [if_neg hfb, if_neg hfalsy]
  have hrt : fetchRoundTrip selfId requestId api params handler =
      ({ registered := false
         outcome := FetchOutcome.resolved (buildResponseData selfId api r
           (buildRequestData selfId requestId api params selfId)) },
       some (buildResponseData selfId api r (buildRequestData selfId requestId api params selfId)),
       none) := by
    simp only [fetchRoundTrip]
    rw [hlst]
    dsimp only
    unfold deliverResponse
    rw [if_pos ⟨rfl, rfl⟩, if_neg (fun hc => hc rfl), if_neg (fun hc => hc rfl),
      if_neg (fun hc => hc rfl)]
  refine ⟨hrt, rfl, rfl, rfl, rfl, rfl, ?_⟩
  rw [hrt]
  rfl

/-- Witness for C1 at a concrete instance: identity `"A"`, api `"Echo"`,
request id `"o-1"`, a handler answering the string `"pong"`. -/
theorem fetch_onFetch_same_instance_resolves_witness :
    fetchRoundTrip "A" "o-1" "Echo" (JSVal.number 7) (fun _ => Except.ok (JSVal.str "pong")) =
      ({ registered := false
         outcome := FetchOutcome.resolved (buildResponseData "A" "Echo" (JSVal.str "pong")
           (buildRequestData "A" "o-1" "Echo" (JSVal.number 7) "A")) },
       some (buildResponseData "A" "Echo" (JSVal.str "pong")
         (buildRequestData "A" "o-1" "Echo" (JSVal.number 7) "A")),
       none)
    ∧ (buildResponseData "A" "Echo" (JSVal.str "pong")
        (buildRequestData "A" "o-1" "Echo" (JSVal.number 7) "A")).data = JSVal.str "pong"
    ∧ (buildResponseData "A" "Echo" (JSVal.str "pong")
        (buildRequestData "A" "o-1" "Echo" (JSVal.number 7) "A")).header.apiKey = "Echo"
    ∧ (buildResponseData "A" "Echo" (JSVal.str "pong")
        (buildRequestData "A" "o-1" "Echo" (JSVal.number 7) "A")).header.requestId
        = (buildRequestData "A" "o-1" "Echo" (JSVal.number 7) "A").header.requestId
    ∧ (buildResponseData "A" "Echo" (JSVal.str "pong")
        (buildRequestData "A" "o-1" "Echo" (JSVal.number 7) "A")).userInfo.requesterId = "A"
    ∧ (buildResponseData "A" "Echo" (JSVal.str "pong")
        (buildRequestData "A" "o-1" "Echo" (JSVal.number 7) "A")).userInfo.replayerId = "A"
    ∧ fireTimeout (fetchRoundTrip "A" "o-1" "Echo" (JSVal.number 7)
        (fun _ => Except.ok (JSVal.str "pong"))).1
        = (fetchRoundTrip "A" "o-1" "Echo" (JSVal.number 7)
            (fun _ => Except.ok (JSVal.str "pong"))).1 :=
  fetch_onFetch_same_instance_resolves "A" "o-1" "Echo" (JSVal.number 7)
    (fun _ => Except.ok (JSVal.str "pong")) (JSVal.str "pong") rfl rfl

/-- **C2**: per call, the pending-registry entry is removed exactly once by
whichever of {matching response, timeout} runs first, and the raced promise
reaches exactly one terminal state.  Starting from the registered/pending
state: the response path yields unregistered/resolved and the later timer
firing changes nothing; the timeout path yields unregistered/rejected
`TIMEOUT` and a later delivery of the (matching) response changes nothing,
because the registry lookup misses. -/
theorem fetch_exactly_once_resolution {ApiKey : Type}
    (requestId remoteId selfId : String) (v : EventFetchResponseDataFormat JSVal ApiKey)
    (h1 : v.header.requestId = requestId) (h2 : v.userInfo.replayerId = remoteId)
    (h3 : v.userInfo.requesterId = selfId) :
    deliverResponse requestId remoteId selfId ⟨true, .pending⟩ v
      = ⟨false, .resolved v⟩
    ∧ fireTimeout (deliverResponse requestId remoteId selfId ⟨true, .pending⟩ v)
      = deliverResponse requestId remoteId selfId ⟨true, .pending⟩ v
    ∧ fireTimeout (⟨true, .pending⟩ : CallState ApiKey)
      = ⟨false, .rejected timeoutError⟩
    ∧ deliverResponse requestId remoteId selfId (fireTimeout ⟨true, .pending⟩) v
      = fireTimeout (⟨true, .pending⟩ : CallState ApiKey) := by
  have ha : deliverResponse requestId remoteId selfId ⟨true, .pending⟩ v
      = ⟨false, .resolved v⟩ := by
    unfold deliverResponse
    rw [if_pos ⟨rfl, h1⟩, if_neg (fun hc => hc h1), if_neg (fun hc => hc h2),
      if_neg (fun hc => hc h3)]
  refine ⟨ha, ?_, rfl, ?_⟩
  · rw [ha]
    rfl
  · unfold deliverResponse
    rw [if_neg (fun hc => Bool.false_ne_true hc.1)]

/-- Witness for C2 at a concrete matching response envelope. -/
theorem fetch_exactly_once_resolution_witness :
    deliverResponse "o-1" "B" "A" ⟨true, .pending⟩
      (⟨JSVal.number 3, ⟨true, "", "o-1", "Echo"⟩, ⟨"A", "B"⟩⟩ :
        EventFetchResponseDataFormat JSVal String)
      = ⟨false, .resolved ⟨JSVal.number 3, ⟨true, "", "o-1", "Echo"⟩, ⟨"A", "B"⟩⟩⟩
    ∧ fireTimeout (deliverResponse "o-1" "B" "A" ⟨true, .pending⟩
        (⟨JSVal.number 3, ⟨true, "", "o-1", "Echo"⟩, ⟨"A", "B"⟩⟩ :
          EventFetchResponseDataFormat JSVal String))
      = deliverResponse "o-1" "B" "A" ⟨true, .pending⟩
          (⟨JSVal.number 3, ⟨true, "", "o-1", "Echo"⟩, ⟨"A", "B"⟩⟩ :
            EventFetchResponseDataFormat JSVal String)
    ∧ fireTimeout (⟨true, .pending⟩ : CallState String)
      = ⟨false, .rejected timeoutError⟩
    ∧ deliverResponse "o-1" "B" "A" (fireTimeout ⟨true, .pending⟩)
        (⟨JSVal.number 3, ⟨true, "", "o-1", "Echo"⟩, ⟨"A", "B"⟩⟩ :
          EventFetchResponseDataFormat JSVal String)
      = fireTimeout (⟨true, .pending⟩ : CallState String) :=
  fetch_exactly_once_resolution "o-1" "B" "A"
    ⟨JSVal.number 3, ⟨true, "", "o-1", "Echo"⟩, ⟨"A", "B"⟩⟩ rfl rfl rfl

/-- **C3**: when no matching response has settled the call, the timer
callback rejects the raced promise with the structured value
`{code: "TIMEOUT", message: "Request timed out"}` (a human-readable
message) and removes the pending-registry entry; the `timeout` parameter
defaults to `5000`. -/
theorem fetch_timeout_rejects {ApiKey : Type} (st : CallState ApiKey)
    (h : st.outcome = .pending) :
    fireTimeout st = { registered := false, outcome := .rejected timeoutError }
    ∧ timeoutError = { code := "TIMEOUT", message := "Request timed out" }
    ∧ timeoutError.message ≠ ""
    ∧ fetchDefaultTimeout = 5000 := by
  refine ⟨?_, rfl, by decide, rfl⟩
  unfold fireTimeout
  rw [h]

/-- Witness for C3 at the freshly-registered pending state. -/
theorem fetch_timeout_rejects_witness :
    fireTimeout (⟨true, .pending⟩ : CallState String)
      = { registered := false, outcome := .rejected timeoutError }
    ∧ timeoutError = { code := "TIMEOUT", message := "Request timed out" }
    ∧ timeoutError.message ≠ ""
    ∧ fetchDefaultTimeout = 5000 :=
  fetch_timeout_rejects ⟨true, FetchOutcome.pending⟩ rfl

/-- **C8**: an `onFetch` handler returning any falsy result (`undefined`,
`null`, `false`, `0`, `""`) makes the wrapper send no response event at
all; the call's registry entry stays and its promise stays pending, so the
later timer rejects it with `TIMEOUT`. -/
theorem onFetch_falsy_no_response {T ApiKey : Type} [DecidableEq ApiKey]
    (selfId requestId : String) (api : ApiKey) (params : T)
    (handler : EventFetchRequestDataFormat T ApiKey → Except String JSVal) (r : JSVal)
    (hh : handler (buildRequestData selfId requestId api params selfId) = .ok r)
    (hr : r.falsy = true) :
    fetchRoundTrip selfId requestId api params handler
      = (⟨true, .pending⟩, none, none)
    ∧ fireTimeout (fetchRoundTrip selfId requestId api params handler).1
      = ⟨false, .rejected timeoutError⟩ := by
  have hlst : onFetchListenerRun selfId api handler
      (buildRequestData selfId requestId api params selfId) = .ok none := by
    unfold onFetchListenerRun
    rw [if_neg (fun hc => hc rfl), if_neg (fun hc => hc rfl), hh]
    dsimp only
    by_cases hfb : r = JSVal.boolean false
    · rw [if_pos hfb]
    · rw [if_neg hfb, if_pos hr]
  have hrt : fetchRoundTrip selfId requestId api params handler
      = (⟨true, .pending⟩, none, none) := by
    simp only [fetchRoundTrip]
    rw [hlst]
  refine ⟨hrt, ?_⟩
  rw [hrt]
  rfl

/-- Witness for C8: a handler answering the falsy `0`. -/
theorem onFetch_falsy_no_response_witness :
    fetchRoundTrip "A" "o-1" "Echo" (JSVal.str "q") (fun _ => Except.ok (JSVal.number 0))
      = (⟨true, .pending⟩, none, none)
    ∧ fireTimeout (fetchRoundTrip "A" "o-1" "Echo" (JSVal.str "q")
        (fun _ => Except.ok (JSVal.number 0))).1
      = ⟨false, .rejected timeoutError⟩ :=
  onFetch_falsy_no_response "A" "o-1" "Echo" (JSVal.str "q")
    (fun _ => Except.ok (JSVal.number 0)) (JSVal.number 0) rfl rfl

/-- **C10**: both envelope builders set `header.success = true` and
`header.message = ""` unconditionally; these two fields are constants of
the implementation. -/
theorem envelope_header_constants {T T0 ApiKey : Type}
    (selfId requestId : String) (api : ApiKey) (params : T) (remoteId : String)
    (resultData : T0) (val : EventFetchRequestDataFormat T ApiKey) :
    (buildRequestData selfId requestId api params remoteId).header.success = true
    ∧ (buildRequestData selfId requestId api params remoteId).header.message = ""
    ∧ (buildResponseData selfId api resultData val).header.success = true
    ∧ (buildResponseData selfId api resultData val).header.message = "" :=
  ⟨rfl, rfl, rfl, rfl⟩

theorem pureBeh_offOnly {K H : Type} : OffOnly (pureBeh : HandlerBeh K H) :=
  ⟨fun op hop => absurd hop (List.not_mem_nil op), rfl⟩

theorem listGet_congr {α : Type} {l l' : List α} (hl : l = l') {m : Nat}
    (hm : m < l.length) (hm' : m < l'.length) : l.get ⟨m, hm⟩ = l'.get ⟨m, hm'⟩ := by
  subst hl
  rfl

theorem dispatchStep_throws {K H : Type} [DecidableEq K] [DecidableEq H]
    (beh : H → HandlerBeh K H) (c : DispatchCtx K H) (i : Nat) (e : String)
    (hlt : i < c.iter.length)
    (herr : (beh ((c.iter.get ⟨i, hlt⟩).handler)).err = some e) :
    dispatchStep beh c i
      = .thrown (runOps c (beh ((c.iter.get ⟨i, hlt⟩).handler)).ops)
          ((c.iter.get ⟨i, hlt⟩).handler) e := by
  simp only [dispatchStep, dif_pos hlt, herr]

theorem runPhase_pure_prefix_throw {K H D : Type} [DecidableEq K] [DecidableEq H]
    (beh : H → HandlerBeh K H) (payload : TaggedData D K) (e : String) :
    ∀ (fuel : Nat) (c : DispatchCtx K H) (i j : Nat), i ≤ j → ∀ hj : j < c.iter.length,
      (∀ m (hm : m < c.iter.length), m < j → beh ((c.iter.get ⟨m, hm⟩).handler) = pureBeh) →
      (beh ((c.iter.get ⟨j, hj⟩).handler)).err = some e →
      j - i < fuel →
      ∃ c', runPhase beh payload fuel c i
        = (c', ((c.iter.drop i).take (j + 1 - i)).map (fun ent => (ent.handler, payload)),
           PhaseStatus.threw e) := by
  intro fuel
  induction fuel with
  | zero => intro c i j hij hj hpure herr hf; omega
  | succ fuel ih =>
    intro c i j hij hj hpure herr hf
    have hlt : i < c.iter.length := lt_of_le_of_lt hij hj
    have hcons : c.iter.drop i = c.iter.get ⟨i, hlt⟩ :: c.iter.drop (i + 1) := by
      rw [List.get_eq_getElem]
      exact List.drop_eq_getElem_cons hlt
    by_cases hieq : i = j
    · subst hieq
      refine ⟨runOps c (beh ((c.iter.get ⟨i, hlt⟩).handler)).ops, ?_⟩
      show runPhase beh payload (fuel + 1) c i = _
      rw [runPhase, dispatchStep_throws beh c i e hlt herr]
      rw [hcons]
      have h1 : i + 1 - i = 1 := by omega
      rw [h1]
      rfl
    · have hij2 : i < j := lt_of_le_of_ne hij hieq
      have hbi : beh ((c.iter.get ⟨i, hlt⟩).handler) = pureBeh := hpure i hlt hij2
      obtain ⟨c1, hstep, hi1, hk1, hp1, hw1, hs1, hrem1⟩ :=
        dispatchStep_offOnly beh c i hlt (by rw [hbi]; exact pureBeh_offOnly)
      have hj1 : j < c1.iter.length := by rw [hi1]; exact hj
      obtain ⟨c', hrun⟩ := ih c1 (i + 1) j (by omega) hj1
        (by
          intro m hm hmj
          have hm' : m < c.iter.length := by rw [← hi1]; exact hm
          rw [listGet_congr hi1 hm hm']
          exact hpure m hm' hmj)
        (by
          rw [listGet_congr hi1 hj1 hj]
          exact herr)
        (by omega)
      refine ⟨c', ?_⟩
      show runPhase beh payload (fuel + 1) c i = _
      rw [runPhase, hstep]
      dsimp only
      rw [hrun, hi1]
      rw [hcons]
      have h1 : j + 1 - i = (j + 1 - (i + 1)) + 1 := by omega
      rw [h1]
      rfl

/-- **C6 counterexample**: a responder whose handler throws `"boom"` makes
the request `emit`'s promise reject — which `Fetch` fires without awaiting
or handling — so, contrary to the claim, nothing reaches the caller of
`Fetch`: the call's raced promise is still pending after the whole request
dispatch, and when the timer fires it rejects with the `TIMEOUT` error,
whose message is not `"boom"`. -/
theorem handler_throw_not_reaching_fetch_cex :
    fetchRoundTrip "s" "o-1" "Api" (JSVal.number 1) (fun _ => Except.error "boom")
      = ({ registered := true, outcome := FetchOutcome.pending }, none, some "boom")
    ∧ (fetchRoundTrip "s" "o-1" "Api" (JSVal.number 1)
        (fun _ => Except.error "boom")).1.outcome = FetchOutcome.pending
    ∧ fireTimeout (fetchRoundTrip "s" "o-1" "Api" (JSVal.number 1)
        (fun _ => Except.error "boom")).1
      = { registered := false, outcome := FetchOutcome.rejected timeoutError }
    ∧ timeoutError.message ≠ "boom" :=
  ⟨rfl, rfl, rfl, by decide⟩

/-- **C6 amended**: a handler that throws during `emit` aborts the rest of
the dispatch pass — with pure handlers before it, the trace is exactly the
first `j + 1` fire-time listeners — and the failure propagates to the
caller of `emit` as the `threw` status; but in a request dispatch it does
*not* reach the caller of `Fetch`: `Fetch` does not await the request
`emit`, so the call stays pending and later rejects with `TIMEOUT`. -/
theorem handler_throw_aborts_dispatch_amended {K H D : Type}
    [DecidableEq K] [DecidableEq H]
    (beh : H → HandlerBeh K H) (k : K) (d : D) (fuel : Nat) (s : EventEmitter K H)
    (j : Nat) (e : String)
    (hj : j < (s.entriesOf k).length)
    (hpure : ∀ m (hm : m < (s.entriesOf k).length), m < j →
      beh (((s.entriesOf k).get ⟨m, hm⟩).handler) = pureBeh)
    (herr : (beh (((s.entriesOf k).get ⟨j, hj⟩).handler)).err = some e)
    (hfuel : j < fuel) :
    (∃ s', emit beh k d fuel s
      = (s', ((s.entriesOf k).take (j + 1)).map
          (fun ent => (ent.handler, (⟨d, k⟩ : TaggedData D K))), PhaseStatus.threw e))
    ∧ ∀ (selfId requestId : String) (api : K) (params : D) (e' : String),
        fetchRoundTrip selfId requestId api params (fun _ => Except.error e')
          = (⟨true, .pending⟩, none, some e')
        ∧ fireTimeout (⟨true, .pending⟩ : CallState K)
          = ⟨false, .rejected timeoutError⟩ := by
  constructor
  · obtain ⟨c', hrun⟩ := runPhase_pure_prefix_throw beh (⟨d, k⟩ : TaggedData D K) e fuel
      ⟨s, (evLookup s._events k).getD [], true, k, DispatchPhase.named⟩ 0 j
      (Nat.zero_le j) hj hpure herr (by omega)
    refine ⟨c'.st, ?_⟩
    show emit beh k d fuel s = _
    simp only [emit]
    rw [hrun]
    dsimp only
    simp [EventEmitter.entriesOf, List.take]
  · intro selfId requestId api params e'
    constructor
    · have hlst : onFetchListenerRun selfId api (fun _ => Except.error e')
          (buildRequestData selfId requestId api params selfId) = .error e' := by
        unfold onFetchListenerRun
        rw [if_neg (fun hc => hc rfl), if_neg (fun hc => hc rfl)]
      simp only [fetchRoundTrip]
      rw [hlst]
    · rfl

/-- Witness for the amended C6: three listeners on `"e"` with priorities
30/20/10; the second one throws, so exactly the first two run. -/
theorem handler_throw_aborts_dispatch_amended_witness :
    (∃ s', emit (fun h => if h = 1 then ⟨[], some "boom"⟩ else pureBeh) "e" () 10
        (((EventEmitter.empty.on' (.keys ["e"]) 0 false 30).on'
          (.keys ["e"]) 1 false 20).on' (.keys ["e"]) 2 false 10)
      = (s', (((((EventEmitter.empty.on' (.keys ["e"]) 0 false 30).on'
          (.keys ["e"]) 1 false 20).on' (.keys ["e"]) 2 false 10).entriesOf "e").take 2).map
          (fun ent => (ent.handler, (⟨(), "e"⟩ : TaggedData Unit String))),
         PhaseStatus.threw "boom"))
    ∧ ∀ (selfId requestId : String) (api : String) (params : Unit) (e' : String),
        fetchRoundTrip selfId requestId api params (fun _ => Except.error e')
          = (⟨true, .pending⟩, none, some e')
        ∧ fireTimeout (⟨true, .pending⟩ : CallState String)
          = ⟨false, .rejected timeoutError⟩ :=
  handler_throw_aborts_dispatch_amended
    (fun h => if h = 1 then ⟨[], some "boom"⟩ else pureBeh) "e" () 10
    (((EventEmitter.empty.on' (.keys ["e"]) 0 false 30).on'
      (.keys ["e"]) 1 false 20).on' (.keys ["e"]) 2 false 10)
    1 "boom" (by decide)
    (by
      intro m hm hmj
      have hm0 : m = 0 := by omega
      subst hm0
      rfl)
    (by rfl) (by decide)

/-- **C7 counterexample**: `emit` does not snapshot.  One listener (handler
`0`, priority 10) is subscribed to `"e"` at fire time; during its
invocation it subscribes handler `1` with priority 5 to the same key.
`on` pushes into and sorts the very array object the loop iterates, so the
in-progress pass invokes handler `1` as well: the trace is `[0, 1]`,
although the fire-time sequences contain only handler `0`. -/
theorem emit_no_snapshot_cex :
    ((emit (fun h => if h = 0 then ⟨[.sub (.keys ["e"]) 1 false 5], none⟩ else pureBeh)
        "e" () 10 (EventEmitter.empty.on' (.keys ["e"]) 0 false 10)).2.1.map Prod.fst)
      = [0, 1]
    ∧ ((EventEmitter.empty.on' (.keys ["e"]) 0 false 10).entriesOf "e").map
        (fun ent => ent.handler) = [0]
    ∧ (EventEmitter.empty.on' (.keys ["e"]) 0 false 10)._wildcard = [] :=
  ⟨rfl, rfl, rfl⟩

/-- **C7 amended**: dispatch is *not* snapshotted, but mid-pass
unsubscription cannot change the pass: `off` replaces the registry array
with a filtered copy while the loop keeps the old object, so when every
handler performs only named-key unsubscriptions, the pass invokes exactly
the fire-time key sequence followed by the fire-time wildcard sequence.
Mid-pass *subscription*, by contrast, mutates the iterated array in place
and can change the pass (see the counterexample). -/
theorem emit_unsub_only_fire_time_amended {K H D : Type} [DecidableEq K] [DecidableEq H]
    (beh : H → HandlerBeh K H) (k : K) (d : D) (fuel : Nat) (s : EventEmitter K H)
    (hb : OffOnlyAll beh)
    (hf1 : (s.entriesOf k).length < fuel) (hf2 : s._wildcard.length < fuel) :
    ∃ s', emit beh k d fuel s
      = (s', (s.entriesOf k).map (fun ent => (ent.handler, (⟨d, k⟩ : TaggedData D K)))
          ++ s._wildcard.map (fun ent => (ent.handler, (⟨d, k⟩ : TaggedData D K))),
         PhaseStatus.done) := by
  obtain ⟨s', heq, _⟩ := emit_offOnly beh k d fuel s hb hf1 hf2
  exact ⟨s', heq⟩

/-- Witness for the amended C7: handler `0` unsubscribes handlers `1` and
`2` mid-pass; the pass still invokes all three fire-time listeners. -/
theorem emit_unsub_only_fire_time_amended_witness :
    ∃ s', emit
        (fun h => if h = 0
          then ⟨[.unsub "e" (some 1), .unsub "e" (some 2)], none⟩ else pureBeh)
        "e" () 10
        (((EventEmitter.empty.on' (.keys ["e"]) 0 false 30).on'
          (.keys ["e"]) 1 false 20).on' (.keys ["e"]) 2 false 10)
      = (s',
         ((((EventEmitter.empty.on' (.keys ["e"]) 0 false 30).on'
            (.keys ["e"]) 1 false 20).on' (.keys ["e"]) 2 false 10).entriesOf "e").map
            (fun ent => (ent.handler, (⟨(), "e"⟩ : TaggedData Unit String)))
          ++ ((((EventEmitter.empty.on' (.keys ["e"]) 0 false 30).on'
            (.keys ["e"]) 1 false 20).on' (.keys ["e"]) 2 false 10))._wildcard.map
            (fun ent => (ent.handler, (⟨(), "e"⟩ : TaggedData Unit String))),
         PhaseStatus.done) :=
  emit_unsub_only_fire_time_amended
    (fun h => if h = 0
      then ⟨[.unsub "e" (some 1), .unsub "e" (some 2)], none⟩ else pureBeh)
    "e" () 10
    (((EventEmitter.empty.on' (.keys ["e"]) 0 false 30).on'
      (.keys ["e"]) 1 false 20).on' (.keys ["e"]) 2 false 10)
    (by
      intro hd
      by_cases h0 : hd = 0
      · subst h0
        refine ⟨fun op hop => ?_, rfl⟩
        have hop2 : op = BusOp.unsub "e" (some 1) ∨ op = BusOp.unsub "e" (some 2) := by
          simpa using hop
        rcases hop2 with rfl | rfl <;> trivial
      · simp only [if_neg h0]
        exact pureBeh_offOnly)
    (by decide) (by decide)

theorem pushEntry_entriesOf_self {K H : Type} [DecidableEq K]
    (acc : EventEmitter K H) (e : K) (ent : ListenerEntry H) :
    (EventEmitter.pushEntry acc e ent).entriesOf e
      = sortEntries (acc.entriesOf e ++ [ent]) := by
  unfold EventEmitter.pushEntry EventEmitter.entriesOf
  rw [evLookup_evSet_self]
  rfl

theorem pushEntry_entriesOf_ne {K H : Type} [DecidableEq K]
    (acc : EventEmitter K H) {e k : K} (ent : ListenerEntry H) (hke : k ≠ e) :
    (EventEmitter.pushEntry acc e ent).entriesOf k = acc.entriesOf k := by
  unfold EventEmitter.pushEntry EventEmitter.entriesOf
  rw [evLookup_evSet_ne _ _ hke]

theorem pushEntry_wildcard {K H : Type} [DecidableEq K]
    (acc : EventEmitter K H) (e : K) (ent : ListenerEntry H) :
    (EventEmitter.pushEntry acc e ent)._wildcard = acc._wildcard := rfl

theorem pushEntry_indexCounter {K H : Type} [DecidableEq K]
    (acc : EventEmitter K H) (e : K) (ent : ListenerEntry H) :
    (EventEmitter.pushEntry acc e ent)._indexCounter = acc._indexCounter := rfl

theorem foldPush_indexCounter {K H : Type} [DecidableEq K] (ent : ListenerEntry H) :
    ∀ (ks : List K) (acc : EventEmitter K H),
    (ks.foldl (fun a e => EventEmitter.pushEntry a e ent) acc)._indexCounter
      = acc._indexCounter
  | [], _ => rfl
  | e :: rest, acc => by
    show (rest.foldl _ (EventEmitter.pushEntry acc e ent))._indexCounter = _
    rw [foldPush_indexCounter ent rest]
    rfl

theorem foldPush_wildcard {K H : Type} [DecidableEq K] (ent : ListenerEntry H) :
    ∀ (ks : List K) (acc : EventEmitter K H),
    (ks.foldl (fun a e => EventEmitter.pushEntry a e ent) acc)._wildcard
      = acc._wildcard
  | [], _ => rfl
  | e :: rest, acc => by
    show (rest.foldl _ (EventEmitter.pushEntry acc e ent))._wildcard = _
    rw [foldPush_wildcard ent rest]
    rfl

theorem foldPush_entriesOf_mem {K H : Type} [DecidableEq K] (ent : ListenerEntry H) :
    ∀ (ks : List K) (acc : EventEmitter K H) (k : K) (x : ListenerEntry H),
    (x ∈ (ks.foldl (fun a e => EventEmitter.pushEntry a e ent) acc).entriesOf k
      ↔ x ∈ acc.entriesOf k ∨ (k ∈ ks ∧ x = ent))
  | [], acc, k, x => by simp
  | e :: rest, acc, k, x => by
    show x ∈ (rest.foldl _ (EventEmitter.pushEntry acc e ent)).entriesOf k ↔ _
    rw [foldPush_entriesOf_mem ent rest]
    by_cases hke : k = e
    · subst hke
      rw [pushEntry_entriesOf_self]
      simp only [mem_sortEntries, List.mem_append, List.mem_singleton, List.mem_cons]
      tauto
    · rw [pushEntry_entriesOf_ne _ _ hke]
      simp only [List.mem_cons]
      have : ¬ k = e := hke
      tauto

theorem on'_indexCounter {K H : Type} [DecidableEq K] (s : EventEmitter K H)
    (tgt : OnTarget K) (h : H) (o : Bool) (p : Int) :
    (s.on' tgt h o p)._indexCounter = s._indexCounter + 1 := by
  unfold EventEmitter.on'
  cases tgt with
  | star => rfl
  | keys ks =>
    rw [foldPush_indexCounter]

theorem on'_wildcard_star {K H : Type} [DecidableEq K] (s : EventEmitter K H)
    (h : H) (o : Bool) (p : Int) :
    (s.on' .star h o p)._wildcard
      = sortEntries (s._wildcard ++ [⟨h, o, p, s._indexCounter⟩]) := rfl

theorem on'_wildcard_keys {K H : Type} [DecidableEq K] (s : EventEmitter K H)
    (ks : List K) (h : H) (o : Bool) (p : Int) :
    (s.on' (.keys ks) h o p)._wildcard = s._wildcard := by
  unfold EventEmitter.on'
  rw [foldPush_wildcard]

theorem on'_entriesOf_star {K H : Type} [DecidableEq K] (s : EventEmitter K H)
    (h : H) (o : Bool) (p : Int) (k : K) :
    (s.on' .star h o p).entriesOf k = s.entriesOf k := rfl

theorem on'_entriesOf_mem {K H : Type} [DecidableEq K] (s : EventEmitter K H)
    (ks : List K) (h : H) (o : Bool) (p : Int) (k : K) (x : ListenerEntry H) :
    x ∈ (s.on' (.keys ks) h o p).entriesOf k
      ↔ x ∈ s.entriesOf k ∨ (k ∈ ks ∧ x = ⟨h, o, p, s._indexCounter⟩) := by
  unfold EventEmitter.on'
  exact foldPush_entriesOf_mem ⟨h, o, p, s._indexCounter⟩ ks _ k x

theorem pushEntry_allSorted {K H : Type} [DecidableEq K]
    {acc : EventEmitter K H} (e : K) (ent : ListenerEntry H)
    (hs : AllSorted acc) : AllSorted (EventEmitter.pushEntry acc e ent) := by
  constructor
  · intro k
    by_cases hke : k = e
    · subst hke
      rw [pushEntry_entriesOf_self]
      exact sortEntries_sorted _
    · rw [pushEntry_entriesOf_ne _ _ hke]
      exact hs.1 k
  · rw [pushEntry_wildcard]
    exact hs.2

theorem foldPush_allSorted {K H : Type} [DecidableEq K] (ent : ListenerEntry H) :
    ∀ (ks : List K) (acc : EventEmitter K H), AllSorted acc →
    AllSorted (ks.foldl (fun a e => EventEmitter.pushEntry a e ent) acc)
  | [], _, hs => hs
  | e :: rest, acc, hs => by
    show AllSorted (rest.foldl _ (EventEmitter.pushEntry acc e ent))
    exact foldPush_allSorted ent rest _ (pushEntry_allSorted e ent hs)

theorem on'_allSorted {K H : Type} [DecidableEq K] {s : EventEmitter K H}
    (tgt : OnTarget K) (h : H) (o : Bool) (p : Int)
    (hs : AllSorted s) : AllSorted (s.on' tgt h o p) := by
  cases tgt with
  | star =>
    constructor
    · intro k
      rw [on'_entriesOf_star]
      exact hs.1 k
    · rw [on'_wildcard_star]
      exact sortEntries_sorted _
  | keys ks =>
    unfold EventEmitter.on'
    exact foldPush_allSorted _ ks _ ⟨hs.1, hs.2⟩

theorem empty_allSorted {K H : Type} [DecidableEq K] :
    AllSorted (EventEmitter.empty : EventEmitter K H) :=
  ⟨fun _ => List.sorted_nil, List.sorted_nil⟩

theorem applySubs_allSorted {K H : Type} [DecidableEq K] :
    ∀ (subs : List (SubSpec K H)) (s : EventEmitter K H), AllSorted s →
    AllSorted (applySubs s subs)
  | [], _, hs => hs
  | sp :: rest, s, hs => by
    show AllSorted (applySubs (s.on' sp.tgt sp.handler sp.once sp.priority) rest)
    exact applySubs_allSorted rest _ (on'_allSorted sp.tgt sp.handler sp.once sp.priority hs)

theorem applySubs_entriesOf_mem {K H : Type} [DecidableEq K] :
    ∀ (subs : List (SubSpec K H)) (s : EventEmitter K H) (k : K) (x : ListenerEntry H),
    (x ∈ (applySubs s subs).entriesOf k ↔
      x ∈ s.entriesOf k ∨ ∃ j, ∃ hjl : j < subs.length, ∃ ks,
        (subs.get ⟨j, hjl⟩).tgt = OnTarget.keys ks ∧ k ∈ ks
        ∧ x = ⟨(subs.get ⟨j, hjl⟩).handler, (subs.get ⟨j, hjl⟩).once,
               (subs.get ⟨j, hjl⟩).priority, s._indexCounter + j⟩)
  | [], s, k, x => by simp [applySubs]
  | sp :: rest, s, k, x => by
    have hstep := applySubs_entriesOf_mem rest
      (s.on' sp.tgt sp.handler sp.once sp.priority) k x
    rw [on'_indexCounter] at hstep
    show x ∈ (applySubs (s.on' sp.tgt sp.handler sp.once sp.priority) rest).entriesOf k ↔ _
    rw [hstep]
    constructor
    · rintro (hmem | ⟨j, hjl, ks, htgt, hkin, hx⟩)
      · rcases htgt0 : sp.tgt with _ | ks0
        · rw [htgt0, on'_entriesOf_star] at hmem
          exact Or.inl hmem
        · rw [htgt0, on'_entriesOf_mem] at hmem
          rcases hmem with hmem | ⟨hkin, hx⟩
          · exact Or.inl hmem
          · exact Or.inr ⟨0, Nat.succ_pos rest.length, ks0, htgt0, hkin, hx⟩
      · refine Or.inr ⟨j + 1, Nat.succ_lt_succ hjl, ks, htgt, hkin, ?_⟩
        rw [hx]
        have harith : s._indexCounter + 1 + j = s._indexCounter + (j + 1) := by omega
        rw [harith]
        rfl
    · rintro (hmem | ⟨j, hjl, ks, htgt, hkin, hx⟩)
      · left
        rcases htgt0 : sp.tgt with _ | ks0
        · rw [on'_entriesOf_star]
          exact hmem
        · rw [on'_entriesOf_mem]
          exact Or.inl hmem
      · cases j with
        | zero =>
          left
          have htgt' : sp.tgt = OnTarget.keys ks := htgt
          rw [htgt', on'_entriesOf_mem]
          exact Or.inr ⟨hkin, hx⟩
        | succ j =>
          refine Or.inr ⟨j, Nat.lt_of_succ_lt_succ hjl, ks, htgt, hkin, ?_⟩
          rw [hx]
          have harith : s._indexCounter + (j + 1) = s._indexCounter + 1 + j := by omega
          rw [harith]
          rfl

theorem applySubs_wildcard_mem {K H : Type} [DecidableEq K] :
    ∀ (subs : List (SubSpec K H)) (s : EventEmitter K H) (x : ListenerEntry H),
    (x ∈ (applySubs s subs)._wildcard ↔
      x ∈ s._wildcard ∨ ∃ j, ∃ hjl : j < subs.length,
        (subs.get ⟨j, hjl⟩).tgt = OnTarget.star
        ∧ x = ⟨(subs.get ⟨j, hjl⟩).handler, (subs.get ⟨j, hjl⟩).once,
               (subs.get ⟨j, hjl⟩).priority, s._indexCounter + j⟩)
  | [], s, x => by simp [applySubs]
  | sp :: rest, s, x => by
    have hstep := applySubs_wildcard_mem rest
      (s.on' sp.tgt sp.handler sp.once sp.priority) x
    rw [on'_indexCounter] at hstep
    show x ∈ (applySubs (s.on' sp.tgt sp.handler sp.once sp.priority) rest)._wildcard ↔ _
    rw [hstep]
    constructor
    · rintro (hmem | ⟨j, hjl, htgt, hx⟩)
      · rcases htgt0 : sp.tgt with _ | ks0
        · rw [htgt0, on'_wildcard_star] at hmem
          rw [mem_sortEntries, List.mem_append, List.mem_singleton] at hmem
          rcases hmem with hmem | hx
          · exact Or.inl hmem
          · exact Or.inr ⟨0, Nat.succ_pos rest.length, htgt0, hx⟩
        · rw [htgt0, on'_wildcard_keys] at hmem
          exact Or.inl hmem
      · refine Or.inr ⟨j + 1, Nat.succ_lt_succ hjl, htgt, ?_⟩
        rw [hx]
        have harith : s._indexCounter + 1 + j = s._indexCounter + (j + 1) := by omega
        rw [harith]
        rfl
    · rintro (hmem | ⟨j, hjl, htgt, hx⟩)
      · left
        rcases htgt0 : sp.tgt with _ | ks0
        · rw [on'_wildcard_star, mem_sortEntries, List.mem_append]
          exact Or.inl hmem
        · rw [on'_wildcard_keys]
          exact hmem
      · cases j with
        | zero =>
          left
          have htgt' : sp.tgt = OnTarget.star := htgt
          rw [htgt', on'_wildcard_star, mem_sortEntries, List.mem_append, List.mem_singleton]
          exact Or.inr hx
        | succ j =>
          refine Or.inr ⟨j, Nat.lt_of_succ_lt_succ hjl, htgt, ?_⟩
          rw [hx]
          have harith : s._indexCounter + (j + 1) = s._indexCounter + 1 + j := by omega
          rw [harith]
          rfl

theorem empty_entriesOf {K H : Type} [DecidableEq K] (k : K) :
    (EventEmitter.empty : EventEmitter K H).entriesOf k = [] := rfl

/-- **C4**: for a bus built by any sequence of `on` calls, an `emit` whose
handlers are passive (no bus mutations, no throws) invokes exactly the
key's listener sequence followed by the wildcard sequence, each passed
`{...data, eventTag: key}`; both sequences are sorted by priority
descending with ties by ascending insertion index, and they contain
exactly the entries the `on` calls put there (the `j`-th call owning
insertion index `j`). -/
theorem emit_priority_order_dispatch {K H D : Type} [DecidableEq K] [DecidableEq H]
    (subs : List (SubSpec K H)) (k : K) (d : D) (beh : H → HandlerBeh K H) (fuel : Nat)
    (hpure : ∀ hd, beh hd = pureBeh)
    (hf1 : ((applySubs EventEmitter.empty subs).entriesOf k).length < fuel)
    (hf2 : (applySubs EventEmitter.empty subs)._wildcard.length < fuel) :
    (∃ s', emit beh k d fuel (applySubs EventEmitter.empty subs)
      = (s',
         ((applySubs EventEmitter.empty subs).entriesOf k).map
           (fun ent => (ent.handler, (⟨d, k⟩ : TaggedData D K)))
         ++ (applySubs EventEmitter.empty subs)._wildcard.map
           (fun ent => (ent.handler, (⟨d, k⟩ : TaggedData D K))),
         PhaseStatus.done))
    ∧ List.Sorted entryRel ((applySubs EventEmitter.empty subs).entriesOf k)
    ∧ List.Sorted entryRel (applySubs EventEmitter.empty subs)._wildcard
    ∧ (∀ x, x ∈ (applySubs EventEmitter.empty subs).entriesOf k ↔
        ∃ j, ∃ hjl : j < subs.length, ∃ ks,
          (subs.get ⟨j, hjl⟩).tgt = OnTarget.keys ks ∧ k ∈ ks
          ∧ x = ⟨(subs.get ⟨j, hjl⟩).handler, (subs.get ⟨j, hjl⟩).once,
                 (subs.get ⟨j, hjl⟩).priority, j⟩)
    ∧ (∀ x, x ∈ (applySubs EventEmitter.empty subs)._wildcard ↔
        ∃ j, ∃ hjl : j < subs.length,
          (subs.get ⟨j, hjl⟩).tgt = OnTarget.star
          ∧ x = ⟨(subs.get ⟨j, hjl⟩).handler, (subs.get ⟨j, hjl⟩).once,
                 (subs.get ⟨j, hjl⟩).priority, j⟩) := by
  have hb : OffOnlyAll beh := fun hd => by rw [hpure hd]; exact pureBeh_offOnly
  refine ⟨?_, ?_, ?_, ?_, ?_⟩
  · obtain ⟨s', heq, _⟩ := emit_offOnly beh k d fuel _ hb hf1 hf2
    exact ⟨s', heq⟩
  · exact (applySubs_allSorted subs _ empty_allSorted).1 k
  · exact (applySubs_allSorted subs _ empty_allSorted).2
  · intro x
    have h0 := applySubs_entriesOf_mem subs EventEmitter.empty k x
    rw [empty_entriesOf] at h0
    simpa [EventEmitter.empty] using h0
  · intro x
    have h0 := applySubs_wildcard_mem subs EventEmitter.empty x
    simpa [EventEmitter.empty] using h0

/-- Witness for C4: three subscriptions — handler 7 on `["e", "f"]` with
priority 10, handler 8 on the wildcard, handler 9 on `["e"]` with
priority 20 — then `emit "e"`. -/
theorem emit_priority_order_dispatch_witness :
    (∃ s', emit (fun _ => (pureBeh : HandlerBeh String Nat)) "e" () 10
        (applySubs EventEmitter.empty
          [⟨.keys ["e", "f"], 7, false, 10⟩, ⟨.star, 8, false, 10⟩, ⟨.keys ["e"], 9, false, 20⟩])
      = (s',
         ((applySubs EventEmitter.empty
            [⟨.keys ["e", "f"], 7, false, 10⟩, ⟨.star, 8, false, 10⟩,
             ⟨.keys ["e"], 9, false, 20⟩]).entriesOf "e").map
           (fun ent => (ent.handler, (⟨(), "e"⟩ : TaggedData Unit String)))
         ++ (applySubs EventEmitter.empty
            [⟨.keys ["e", "f"], 7, false, 10⟩, ⟨.star, 8, false, 10⟩,
             ⟨.keys ["e"], 9, false, 20⟩])._wildcard.map
           (fun ent => (ent.handler, (⟨(), "e"⟩ : TaggedData Unit String))),
         PhaseStatus.done))
    ∧ List.Sorted entryRel
        ((applySubs EventEmitter.empty
          [⟨.keys ["e", "f"], 7, false, 10⟩, ⟨.star, 8, false, 10⟩,
           ⟨.keys ["e"], 9, false, 20⟩]).entriesOf "e")
    ∧ List.Sorted entryRel
        (applySubs EventEmitter.empty
          [⟨.keys ["e", "f"], 7, false, 10⟩, ⟨.star, 8, false, 10⟩,
           ⟨.keys ["e"], 9, false, 20⟩])._wildcard
    ∧ (∀ x, x ∈ (applySubs EventEmitter.empty
          [⟨.keys ["e", "f"], 7, false, 10⟩, ⟨.star, 8, false, 10⟩,
           ⟨.keys ["e"], 9, false, 20⟩]).entriesOf "e" ↔
        ∃ j, ∃ hjl : j < ([⟨.keys ["e", "f"], 7, false, 10⟩, ⟨.star, 8, false, 10⟩,
             (⟨.keys ["e"], 9, false, 20⟩ : SubSpec String Nat)] : List (SubSpec String Nat)).length,
          ∃ ks,
          (([⟨.keys ["e", "f"], 7, false, 10⟩, ⟨.star, 8, false, 10⟩,
             ⟨.keys ["e"], 9, false, 20⟩] : List (SubSpec String Nat)).get ⟨j, hjl⟩).tgt
            = OnTarget.keys ks ∧ "e" ∈ ks
          ∧ x = ⟨(([⟨.keys ["e", "f"], 7, false, 10⟩, ⟨.star, 8, false, 10⟩,
                  ⟨.keys ["e"], 9, false, 20⟩] : List (SubSpec String Nat)).get ⟨j, hjl⟩).handler,
                 (([⟨.keys ["e", "f"], 7, false, 10⟩, ⟨.star, 8, false, 10⟩,
                  ⟨.keys ["e"], 9, false, 20⟩] : List (SubSpec String Nat)).get ⟨j, hjl⟩).once,
                 (([⟨.keys ["e", "f"], 7, false, 10⟩, ⟨.star, 8, false, 10⟩,
                  ⟨.keys ["e"], 9, false, 20⟩] : List (SubSpec String Nat)).get ⟨j, hjl⟩).priority, j⟩)
    ∧ (∀ x, x ∈ (applySubs EventEmitter.empty
          [⟨.keys ["e", "f"], 7, false, 10⟩, ⟨.star, 8, false, 10⟩,
           ⟨.keys ["e"], 9, false, 20⟩])._wildcard ↔
        ∃ j, ∃ hjl : j < ([⟨.keys ["e", "f"], 7, false, 10⟩, ⟨.star, 8, false, 10⟩,
             (⟨.keys ["e"], 9, false, 20⟩ : SubSpec String Nat)] : List (SubSpec String Nat)).length,
          (([⟨.keys ["e", "f"], 7, false, 10⟩, ⟨.star, 8, false, 10⟩,
             ⟨.keys ["e"], 9, false, 20⟩] : List (SubSpec String Nat)).get ⟨j, hjl⟩).tgt
            = OnTarget.star
          ∧ x = ⟨(([⟨.keys ["e", "f"], 7, false, 10⟩, ⟨.star, 8, false, 10⟩,
                  ⟨.keys ["e"], 9, false, 20⟩] : List (SubSpec String Nat)).get ⟨j, hjl⟩).handler,
                 (([⟨.keys ["e", "f"], 7, false, 10⟩, ⟨.star, 8, false, 10⟩,
                  ⟨.keys ["e"], 9, false, 20⟩] : List (SubSpec String Nat)).get ⟨j, hjl⟩).once,
                 (([⟨.keys ["e", "f"], 7, false, 10⟩, ⟨.star, 8, false, 10⟩,
                  ⟨.keys ["e"], 9, false, 20⟩] : List (SubSpec String Nat)).get ⟨j, hjl⟩).priority, j⟩) :=
  emit_priority_order_dispatch
    [⟨.keys ["e", "f"], 7, false, 10⟩, ⟨.star, 8, false, 10⟩, ⟨.keys ["e"], 9, false, 20⟩]
    "e" () (fun _ => pureBeh) 10 (fun _ => rfl) (by decide) (by decide)

theorem emShrinks_handlerFree {K H : Type} [DecidableEq K] {s s' : EventEmitter K H}
    {h : H} (hsh : EmShrinks s s') (hf : handlerFree s h) : handlerFree s' h := by
  obtain ⟨hse, hsw⟩ := hsh
  obtain ⟨hfe, hfw⟩ := hf
  constructor
  · intro k l' hl'
    obtain ⟨l, hl, hsub⟩ := hse k l' hl'
    intro ent hent
    exact hfe k l hl ent (hsub.subset hent)
  · intro ent hent
    exact hfw ent (hsw.subset hent)

theorem handlerFree_entriesOf {K H : Type} [DecidableEq K] {s : EventEmitter K H}
    {h : H} (hf : handlerFree s h) (k : K) : handlerFreeL (s.entriesOf k) h := by
  unfold EventEmitter.entriesOf
  cases hlk : evLookup s._events k with
  | none => intro ent hent; exact absurd hent (List.not_mem_nil ent)
  | some l => exact hf.1 k l hlk

theorem emShrinks_fuelOK {K H : Type} [DecidableEq K] {s s' : EventEmitter K H}
    {fuel : Nat} (hsh : EmShrinks s s') (hf : fuelOK s fuel) : fuelOK s' fuel := by
  obtain ⟨hse, hsw⟩ := hsh
  refine ⟨hf.1, ?_, lt_of_le_of_lt hsw.length_le hf.2.2⟩
  intro k l' hl'
  obtain ⟨l, hl, hsub⟩ := hse k l' hl'
  exact lt_of_le_of_lt hsub.length_le (hf.2.1 k l hl)

theorem fuelOK_entriesOf {K H : Type} [DecidableEq K] {s : EventEmitter K H}
    {fuel : Nat} (hf : fuelOK s fuel) (k : K) : (s.entriesOf k).length < fuel := by
  unfold EventEmitter.entriesOf
  cases hlk : evLookup s._events k with
  | none => exact hf.1
  | some l => exact hf.2.1 k l hlk

theorem countEnt_eq_zero {H : Type} [DecidableEq H] {l : List (ListenerEntry H)} {h : H} :
    countEnt l h = 0 ↔ handlerFreeL l h := by
  unfold countEnt handlerFreeL
  rw [List.countP_eq_zero]
  constructor
  · intro hz ent hent
    have := hz ent hent
    simpa using this
  · intro hz ent hent
    simpa using hz ent hent

theorem countEnt_pos {H : Type} [DecidableEq H] {l : List (ListenerEntry H)} {h : H} :
    0 < countEnt l h ↔ ∃ ent ∈ l, ent.handler = h := by
  unfold countEnt
  rw [List.countP_pos_iff]
  constructor
  · rintro ⟨ent, hent, hp⟩
    exact ⟨ent, hent, by simpa using hp⟩
  · rintro ⟨ent, hent, hp⟩
    exact ⟨ent, hent, by simpa using hp⟩

theorem countEnt_sublist {H : Type} [DecidableEq H] {l l' : List (ListenerEntry H)}
    (hsub : l'.Sublist l) (h : H) : countEnt l' h ≤ countEnt l h :=
  hsub.countP_le _

theorem countInv_map_append {K H D : Type} [DecidableEq H]
    (l1 l2 : List (ListenerEntry H)) (payload : TaggedData D K) (h : H) :
    countInv (l1.map (fun ent => (ent.handler, payload))
      ++ l2.map (fun ent => (ent.handler, payload))) h
      = countEnt l1 h + countEnt l2 h := by
  unfold countInv countEnt
  rw [List.countP_append, List.countP_map, List.countP_map]
  rfl

theorem runPhase_once_free {K H D : Type} [DecidableEq K] [DecidableEq H]
    (beh : H → HandlerBeh K H) (payload : TaggedData D K) (h : H) (hb : OffOnlyAll beh) :
    ∀ (fuel : Nat) (c : DispatchCtx K H) (i : Nat), c.iter.length - i < fuel →
    c.phase = DispatchPhase.named →
    (∀ k' l, k' ≠ c.key → evLookup c.st._events k' = some l → handlerFreeL l h) →
    handlerFreeL c.st._wildcard h →
    (∀ ent ∈ c.iter, ent.handler = h → ent.once = true) →
    ∃ c', runPhase beh payload fuel c i
        = (c', (c.iter.drop i).map (fun ent => (ent.handler, payload)), PhaseStatus.done)
      ∧ c'.st._wildcard = c.st._wildcard
      ∧ EmShrinks c.st c'.st
      ∧ ((∃ ent ∈ c.iter.drop i, ent.handler = h) → handlerFree c'.st h) := by
  intro fuel
  induction fuel with
  | zero => intro c i hfu; omega
  | succ fuel ih =>
    intro c i hfu hph hoff hwf honce
    by_cases hlt : i < c.iter.length
    · obtain ⟨c1, hstep, hi1, hk1, hp1, hw1, hs1, hrem1⟩ :=
        dispatchStep_offOnly beh c i hlt (hb _)
      have hwild1 : c1.st._wildcard = c.st._wildcard := hw1 hph
      have hoff1 : ∀ k' l, k' ≠ c1.key → evLookup c1.st._events k' = some l →
          handlerFreeL l h := by
        intro k' l hk' hl
        obtain ⟨l0, hl0, hsub⟩ := hs1.1 k' l hl
        intro ent hent
        exact hoff k' l0 (by rw [hk1] at hk'; exact hk') hl0 ent (hsub.subset hent)
      have honce1 : ∀ ent ∈ c1.iter, ent.handler = h → ent.once = true := by
        rw [hi1]
        exact honce
      have hwf1 : handlerFreeL c1.st._wildcard h := by
        rw [hwild1]
        exact hwf
      have hcons : c.iter.drop i = c.iter.get ⟨i, hlt⟩ :: c.iter.drop (i + 1) := by
        rw [List.get_eq_getElem]
        exact List.drop_eq_getElem_cons hlt
      by_cases hent : (c.iter.get ⟨i, hlt⟩).handler = h
      · -- the once entry for h is invoked here and removed right after
        have honceE : (c.iter.get ⟨i, hlt⟩).once = true :=
          honce _ (List.get_mem c.iter i hlt) hent
        have hfree1 : handlerFree c1.st h := by
          constructor
          · intro k l hl
            by_cases hk : k = c.key
            · subst hk
              have := hrem1 honceE hph l hl
              rw [hent] at this
              exact this
            · exact hoff1 k l (by rw [hk1]; exact hk) hl
          · exact hwf1
        obtain ⟨c', hrun, hi2, hk2, hp2, hw2, hs2⟩ :=
          runPhase_offOnly beh payload hb fuel c1 (i + 1) (by rw [hi1]; omega)
        refine ⟨c', ?_, ?_, ?_, ?_⟩
        · show runPhase beh payload (fuel + 1) c i = _
          rw [runPhase, hstep]
          dsimp only
          rw [hrun, hi1, hcons]
          rfl
        · rw [hw2 (by rw [hp1]; exact hph), hwild1]
        · exact emShrinks_trans hs1 hs2
        · intro _
          exact emShrinks_handlerFree hs2 hfree1
      · obtain ⟨c', hrun, hwild2, hs2, himp⟩ := ih c1 (i + 1)
          (by rw [hi1]; omega) (hp1.trans hph) hoff1 hwf1 honce1
        refine ⟨c', ?_, ?_, ?_, ?_⟩
        · show runPhase beh payload (fuel + 1) c i = _
          rw [runPhase, hstep]
          dsimp only
          rw [hrun, hi1, hcons]
          rfl
        · rw [hwild2, hwild1]
        · exact emShrinks_trans hs1 hs2
        · intro hex
          rw [hcons] at hex
          obtain ⟨ent, hentmem, henth⟩ := hex
          rcases List.mem_cons.mp hentmem with rfl | hmem
          · exact absurd henth hent
          · refine himp ⟨ent, ?_, henth⟩
            rw [hi1]
            exact hmem
    · have hdrop : c.iter.drop i = [] := List.drop_eq_nil_of_le (le_of_not_lt hlt)
      refine ⟨c, ?_, rfl, emShrinks_refl _, ?_⟩
      · show runPhase beh payload (fuel + 1) c i = _
        rw [runPhase, dispatchStep_finished beh c i hlt, hdrop]
        rfl
      · intro hex
        rw [hdrop] at hex
        obtain ⟨ent, hentmem, _⟩ := hex
        exact absurd hentmem (List.not_mem_nil ent)

theorem countInv_append {K H D : Type} [DecidableEq H]
    (t1 t2 : List (H × TaggedData D K)) (h : H) :
    countInv (t1 ++ t2) h = countInv t1 h + countInv t2 h :=
  List.countP_append _ t1 t2

theorem emit_free {K H D : Type} [DecidableEq K] [DecidableEq H]
    (beh : H → HandlerBeh K H) (k : K) (d : D) (fuel : Nat) (s : EventEmitter K H) (h : H)
    (hb : OffOnlyAll beh) (hfu : fuelOK s fuel) (hfree : handlerFree s h) :
    ∃ s' tr, emit beh k d fuel s = (s', tr, PhaseStatus.done)
      ∧ countInv tr h = 0 ∧ handlerFree s' h ∧ fuelOK s' fuel := by
  obtain ⟨s', heq, hsh⟩ := emit_offOnly beh k d fuel s hb (fuelOK_entriesOf hfu k) hfu.2.2
  refine ⟨s', _, heq, ?_, emShrinks_handlerFree hsh hfree, emShrinks_fuelOK hsh hfu⟩
  rw [countInv_map_append]
  have h1 : countEnt (s.entriesOf k) h = 0 :=
    countEnt_eq_zero.mpr (handlerFree_entriesOf hfree k)
  have h2 : countEnt s._wildcard h = 0 := countEnt_eq_zero.mpr hfree.2
  omega

theorem emShrinks_entriesOf_sublist {K H : Type} [DecidableEq K]
    {s s' : EventEmitter K H} (hsh : EmShrinks s s') (k : K) :
    (s'.entriesOf k).Sublist (s.entriesOf k) := by
  unfold EventEmitter.entriesOf
  cases hlk : evLookup s'._events k with
  | none => exact List.nil_sublist _
  | some l' =>
    obtain ⟨l, hl, hsub⟩ := hsh.1 k l' hlk
    rw [hl]
    exact hsub

theorem emShrinks_onceConfig {K H : Type} [DecidableEq K] [DecidableEq H]
    {s s' : EventEmitter K H} {e : K} {h : H}
    (hsh : EmShrinks s s') (hcfg : onceConfig s e h) : onceConfig s' e h := by
  obtain ⟨hc1, hc2, hc3, hc4⟩ := hcfg
  refine ⟨?_, ?_, ?_, ?_⟩
  · exact le_trans (countEnt_sublist (emShrinks_entriesOf_sublist hsh e) h) hc1
  · intro ent hent hh
    exact hc2 ent ((emShrinks_entriesOf_sublist hsh e).subset hent) hh
  · intro k' hk' ent hent
    exact hc3 k' hk' ent ((emShrinks_entriesOf_sublist hsh k').subset hent)
  · intro ent hent
    exact hc4 ent (hsh.2.subset hent)

theorem emit_once_key {K H D : Type} [DecidableEq K] [DecidableEq H]
    (beh : H → HandlerBeh K H) (e : K) (d : D) (fuel : Nat) (s : EventEmitter K H) (h : H)
    (hb : OffOnlyAll beh) (hfu : fuelOK s fuel) (hcfg : onceConfig s e h) :
    ∃ s' tr, emit beh e d fuel s = (s', tr, PhaseStatus.done)
      ∧ countInv tr h = countEnt (s.entriesOf e) h
      ∧ EmShrinks s s' ∧ fuelOK s' fuel
      ∧ (0 < countEnt (s.entriesOf e) h → handlerFree s' h) := by
  have hoff : ∀ k' l, k' ≠ e → evLookup s._events k' = some l → handlerFreeL l h := by
    intro k' l hk' hl
    have := hcfg.2.2.1 k' hk'
    unfold EventEmitter.entriesOf at this
    rw [hl] at this
    exact this
  obtain ⟨c1, hrun1, hwild1, hs1, himp1⟩ :=
    runPhase_once_free beh (⟨d, e⟩ : TaggedData D K) h hb fuel
      ⟨s, (evLookup s._events e).getD [], true, e, DispatchPhase.named⟩ 0
      (by
        have := fuelOK_entriesOf hfu e
        unfold EventEmitter.entriesOf at this
        simpa using this)
      rfl hoff hcfg.2.2.2 hcfg.2.1
  obtain ⟨c2, hrun2, hi2, hk2, hp2, hw2, hs2⟩ :=
    runPhase_offOnly beh (⟨d, e⟩ : TaggedData D K) hb fuel
      ⟨c1.st, c1.st._wildcard, true, e, DispatchPhase.wild⟩ 0
      (by
        show c1.st._wildcard.length - 0 < fuel
        rw [hwild1]
        simpa using hfu.2.2)
  have hem : emit beh e d fuel s
      = (c2.st, (s.entriesOf e).map (fun ent => (ent.handler, (⟨d, e⟩ : TaggedData D K)))
          ++ s._wildcard.map (fun ent => (ent.handler, (⟨d, e⟩ : TaggedData D K))),
         PhaseStatus.done) := by
    show emit beh e d fuel s = _
    simp only [emit]
    rw [hrun1]
    dsimp only
    rw [hrun2]
    dsimp only
    simp [EventEmitter.entriesOf, hwild1]
  have hshrinks : EmShrinks s c2.st := emShrinks_trans hs1 hs2
  refine ⟨c2.st, _, hem, ?_, hshrinks, emShrinks_fuelOK hshrinks hfu, ?_⟩
  · rw [countInv_map_append]
    have h2 : countEnt s._wildcard h = 0 := countEnt_eq_zero.mpr hcfg.2.2.2
    omega
  · intro hpos
    obtain ⟨ent, hent, henth⟩ := countEnt_pos.mp hpos
    have hfree1 : handlerFree c1.st h := by
      apply himp1
      refine ⟨ent, ?_, henth⟩
      simpa [EventEmitter.entriesOf] using hent
    exact emShrinks_handlerFree hs2 hfree1

theorem emitSeq_free {K H D : Type} [DecidableEq K] [DecidableEq H]
    (beh : H → HandlerBeh K H) (fuel : Nat) (h : H) (hb : OffOnlyAll beh) :
    ∀ (calls : List (K × D)) (s : EventEmitter K H), fuelOK s fuel → handlerFree s h →
    countInv (emitSeq beh fuel s calls).2 h = 0
  | [], _, _, _ => rfl
  | (k, d) :: rest, s, hfu, hfree => by
    obtain ⟨s', tr, heq, hc, hfree', hfu'⟩ := emit_free beh k d fuel s h hb hfu hfree
    show countInv (emitSeq beh fuel s ((k, d) :: rest)).2 h = 0
    simp only [emitSeq]
    rw [heq]
    dsimp only
    rw [countInv_append, hc, emitSeq_free beh fuel h hb rest s' hfu' hfree']

theorem emitSeq_once {K H D : Type} [DecidableEq K] [DecidableEq H]
    (beh : H → HandlerBeh K H) (fuel : Nat) (e : K) (h : H) (hb : OffOnlyAll beh) :
    ∀ (calls : List (K × D)) (s : EventEmitter K H), fuelOK s fuel → onceConfig s e h →
    countInv (emitSeq beh fuel s calls).2 h ≤ 1
  | [], _, _, _ => by simp [emitSeq, countInv]
  | (k, d) :: rest, s, hfu, hcfg => by
    by_cases hke : k = e
    · subst hke
      obtain ⟨s', tr, heq, hcount, hsh, hfu', himp⟩ :=
        emit_once_key beh k d fuel s h hb hfu hcfg
      show countInv (emitSeq beh fuel s ((k, d) :: rest)).2 h ≤ 1
      simp only [emitSeq]
      rw [heq]
      dsimp only
      rw [countInv_append, hcount]
      by_cases hpos : 0 < countEnt (s.entriesOf k) h
      · rw [emitSeq_free beh fuel h hb rest s' hfu' (himp hpos)]
        have := hcfg.1
        omega
      · have h0 : countEnt (s.entriesOf k) h = 0 := by omega
        rw [h0]
        have := emitSeq_once beh fuel k h hb rest s' hfu' (emShrinks_onceConfig hsh hcfg)
        omega
    · obtain ⟨s', heq, hsh⟩ :=
        emit_offOnly beh k d fuel s hb (fuelOK_entriesOf hfu k) hfu.2.2
      show countInv (emitSeq beh fuel s ((k, d) :: rest)).2 h ≤ 1
      simp only [emitSeq]
      rw [heq]
      dsimp only
      rw [countInv_append, countInv_map_append]
      have h1 : countEnt (s.entriesOf k) h = 0 :=
        countEnt_eq_zero.mpr (hcfg.2.2.1 k hke)
      have h2 : countEnt s._wildcard h = 0 := countEnt_eq_zero.mpr hcfg.2.2.2
      have := emitSeq_once beh fuel e h hb rest s'
        (emShrinks_fuelOK hsh hfu) (emShrinks_onceConfig hsh hcfg)
      omega

/-- **C5**: provided dispatch handlers do not subscribe new listeners
mid-pass (the `OffOnly` restriction, which includes passive handlers), a
handler subscribed `once` to event `e` and attached nowhere else is
invoked at most one time across any sequence of `emit` calls; moreover—the
second conjunct—the `once` bookkeeping removes the handler from the
registry sequence of the dispatched key immediately after the step that
invokes it, i.e. in the very dispatch-context the next listener of the
pass sees. -/
theorem once_listener_at_most_once {K H D : Type} [DecidableEq K] [DecidableEq H]
    (beh : H → HandlerBeh K H) (fuel : Nat) (s : EventEmitter K H) (e : K) (h : H)
    (calls : List (K × D))
    (hb : OffOnlyAll beh) (hfu : fuelOK s fuel) (hcfg : onceConfig s e h) :
    countInv (emitSeq beh fuel s calls).2 h ≤ 1
    ∧ ∀ (c : DispatchCtx K H) (i : Nat) (hlt : i < c.iter.length),
        c.phase = DispatchPhase.named →
        (c.iter.get ⟨i, hlt⟩).once = true →
        ∃ c', dispatchStep beh c i = .stepped c' ((c.iter.get ⟨i, hlt⟩).handler)
          ∧ ∀ l, evLookup c'.st._events c.key = some l →
              handlerFreeL l ((c.iter.get ⟨i, hlt⟩).handler) := by
  constructor
  · exact emitSeq_once beh fuel e h hb calls s hfu hcfg
  · intro c i hlt hph honce
    obtain ⟨c', hstep, _, _, _, _, _, hrem⟩ := dispatchStep_offOnly beh c i hlt (hb _)
    exact ⟨c', hstep, hrem honce hph⟩

/-- Witness for C5: handler `5` subscribed `once` to `"e"`, then two emits
of `"e"`. -/
theorem once_listener_at_most_once_witness :
    countInv (emitSeq (fun _ => (pureBeh : HandlerBeh String Nat)) 10
      (EventEmitter.empty.on' (.keys ["e"]) 5 true 10)
      ([("e", ()), ("e", ())] : List (String × Unit))).2 5 ≤ 1
    ∧ ∀ (c : DispatchCtx String Nat) (i : Nat) (hlt : i < c.iter.length),
        c.phase = DispatchPhase.named →
        (c.iter.get ⟨i, hlt⟩).once = true →
        ∃ c', dispatchStep (fun _ => (pureBeh : HandlerBeh String Nat)) c i
            = .stepped c' ((c.iter.get ⟨i, hlt⟩).handler)
          ∧ ∀ l, evLookup c'.st._events c.key = some l →
              handlerFreeL l ((c.iter.get ⟨i, hlt⟩).handler) :=
  once_listener_at_most_once (fun _ => pureBeh) 10
    (EventEmitter.empty.on' (.keys ["e"]) 5 true 10) "e" 5 [("e", ()), ("e", ())]
    (fun _ => pureBeh_offOnly)
    ⟨by decide,
     by
      intro k l hlk
      have hmem := evLookup_mem hlk
      rw [show (EventEmitter.empty.on' (OnTarget.keys ["e"]) 5 true 10)._events
          = [("e", [⟨5, true, 10, 0⟩])] from rfl] at hmem
      have hl : l = [⟨5, true, 10, 0⟩] :=
        congrArg Prod.snd (List.mem_singleton.mp hmem)
      rw [hl]
      decide,
     by decide⟩
    ⟨by decide,
     by decide,
     by
      intro k' hk' ent hent
      have hnil : (EventEmitter.empty.on' (OnTarget.keys ["e"]) 5 true 10).entriesOf k'
          = [] := by
        unfold EventEmitter.entriesOf
        rw [show (EventEmitter.empty.on' (OnTarget.keys ["e"]) 5 true 10)._events
            = [("e", [⟨5, true, 10, 0⟩])] from rfl]
        simp [evLookup, Ne.symm hk']
      rw [hnil] at hent
      exact absurd hent (List.not_mem_nil ent),
     by
      intro ent hent
      rw [show (EventEmitter.empty.on' (OnTarget.keys ["e"]) 5 true 10)._wildcard
          = ([] : List (ListenerEntry Nat)) from rfl] at hent
      exact absurd hent (List.not_mem_nil ent)⟩

theorem off_self_free {K H : Type} [DecidableEq K] [DecidableEq H]
    (s : EventEmitter K H) (e : K) (h : H) :
    handlerFreeL ((s.off e (some h)).entriesOf e) h := by
  unfold EventEmitter.off
  cases hlk : evLookup s._events e with
  | none =>
    unfold EventEmitter.entriesOf
    rw [hlk]
    intro ent hent
    exact absurd hent (List.not_mem_nil ent)
  | some l =>
    unfold EventEmitter.entriesOf
    rw [evLookup_evSet_self]
    intro ent hent
    rw [Option.getD_some, List.mem_filter] at hent
    simpa using hent.2

theorem unsubscribeOn_shrinks {K H : Type} [DecidableEq K] [DecidableEq H] (h : H) :
    ∀ (ks : List K) (s : EventEmitter K H), EmShrinks s (s.unsubscribeOn ks h)
  | [], s => emShrinks_refl s
  | e :: rest, s => by
    show EmShrinks s ((s.off e (some h)).unsubscribeOn rest h)
    exact emShrinks_trans (off_shrinks s e (some h)) (unsubscribeOn_shrinks h rest _)

theorem unsubscribeOn_freeL {K H : Type} [DecidableEq K] [DecidableEq H] (h : H) :
    ∀ (ks : List K) (s : EventEmitter K H) (k : K), k ∈ ks →
    handlerFreeL ((s.unsubscribeOn ks h).entriesOf k) h
  | [], _, k, hk => absurd hk (List.not_mem_nil k)
  | e :: rest, s, k, hk => by
    show handlerFreeL (((s.off e (some h)).unsubscribeOn rest h).entriesOf k) h
    by_cases hkr : k ∈ rest
    · exact unsubscribeOn_freeL h rest _ k hkr
    · have hke : k = e := by
        rcases List.mem_cons.mp hk with hke | hkr2
        · exact hke
        · exact absurd hkr2 hkr
      subst hke
      have hfree0 : handlerFreeL ((s.off k (some h)).entriesOf k) h := off_self_free s k h
      have hsub := emShrinks_entriesOf_sublist (unsubscribeOn_shrinks h rest (s.off k (some h))) k
      intro ent hent
      exact hfree0 ent (hsub.subset hent)

theorem off_free_id {K H : Type} [DecidableEq K] [DecidableEq H]
    {s : EventEmitter K H} {e : K} {h : H}
    (hfree : handlerFreeL (s.entriesOf e) h) : s.off e (some h) = s := by
  unfold EventEmitter.off
  cases hlk : evLookup s._events e with
  | none => rfl
  | some l =>
    have hfree' : handlerFreeL l h := by
      unfold EventEmitter.entriesOf at hfree
      rw [hlk] at hfree
      exact hfree
    have hfil : l.filter (fun ent => decide (ent.handler ≠ h)) = l := by
      rw [List.filter_eq_self]
      intro ent hent
      simpa using hfree' ent hent
    dsimp only
    rw [hfil, evSet_lookup_self hlk]

theorem unsubscribeOn_free_id {K H : Type} [DecidableEq K] [DecidableEq H] (h : H) :
    ∀ (ks : List K) (s : EventEmitter K H),
    (∀ k ∈ ks, handlerFreeL (s.entriesOf k) h) → s.unsubscribeOn ks h = s
  | [], _, _ => rfl
  | e :: rest, s, hfree => by
    show (s.off e (some h)).unsubscribeOn rest h = s
    rw [off_free_id (hfree e (List.mem_cons_self e rest))]
    exact unsubscribeOn_free_id h rest s (fun k hk => hfree k (List.mem_cons_of_mem e hk))

theorem handlerFree_of_entriesOf {K H : Type} [DecidableEq K] {s : EventEmitter K H} {h : H}
    (he : ∀ k, handlerFreeL (s.entriesOf k) h)
    (hw : handlerFreeL s._wildcard h) : handlerFree s h := by
  refine ⟨?_, hw⟩
  intro k l hl
  have := he k
  unfold EventEmitter.entriesOf at this
  rw [hl] at this
  exact this

/-- **C9**: the unsubscribe closure returned by `on` — one `off(key,
handler)` per subscribed key — removes the handler from every key of the
subscription; it is idempotent (running it a second time is a strict
no-op on the state); and, provided the handler is not also attached via
other keys or the wildcard class and the remaining handlers only
unsubscribe, every subsequent `emit` sequence invokes it zero times. -/
theorem unsubscribe_removes_and_idempotent {K H D : Type} [DecidableEq K] [DecidableEq H]
    (s : EventEmitter K H) (ks : List K) (h : H)
    (beh : H → HandlerBeh K H) (fuel : Nat)
    (hw : handlerFreeL s._wildcard h)
    (ho : ∀ k', k' ∉ ks → handlerFreeL (s.entriesOf k') h)
    (hb : OffOnlyAll beh)
    (hfu : fuelOK (s.unsubscribeOn ks h) fuel) :
    (∀ k ∈ ks, handlerFreeL ((s.unsubscribeOn ks h).entriesOf k) h)
    ∧ (s.unsubscribeOn ks h).unsubscribeOn ks h = s.unsubscribeOn ks h
    ∧ ∀ (calls : List (K × D)),
        countInv (emitSeq beh fuel (s.unsubscribeOn ks h) calls).2 h = 0 := by
  have hsh := unsubscribeOn_shrinks h ks s
  have hall : ∀ k, handlerFreeL ((s.unsubscribeOn ks h).entriesOf k) h := by
    intro k
    by_cases hk : k ∈ ks
    · exact unsubscribeOn_freeL h ks s k hk
    · intro ent hent
      exact ho k hk ent ((emShrinks_entriesOf_sublist hsh k).subset hent)
  have hwild : handlerFreeL (s.unsubscribeOn ks h)._wildcard h := by
    intro ent hent
    exact hw ent (hsh.2.subset hent)
  refine ⟨fun k hk => unsubscribeOn_freeL h ks s k hk, ?_, ?_⟩
  · exact unsubscribeOn_free_id h ks _ (fun k hk => hall k)
  · intro calls
    exact emitSeq_free beh fuel h hb calls _ hfu (handlerFree_of_entriesOf hall hwild)

/-- Witness for C9: handler `7` subscribed to `["a", "b"]` (and handler
`8` separately on `"a"`), then the unsubscribe closure for `7` runs. -/
theorem unsubscribe_removes_and_idempotent_witness :
    (∀ k ∈ (["a", "b"] : List String),
      handlerFreeL ((((EventEmitter.empty.on' (.keys ["a", "b"]) 7 false 10).on'
        (.keys ["a"]) 8 false 10).unsubscribeOn ["a", "b"] 7).entriesOf k) 7)
    ∧ ((((EventEmitter.empty.on' (.keys ["a", "b"]) 7 false 10).on'
        (.keys ["a"]) 8 false 10).unsubscribeOn ["a", "b"] 7).unsubscribeOn ["a", "b"] 7
      = ((EventEmitter.empty.on' (.keys ["a", "b"]) 7 false 10).on'
        (.keys ["a"]) 8 false 10).unsubscribeOn ["a", "b"] 7)
    ∧ ∀ (calls : List (String × Unit)),
        countInv (emitSeq (fun _ => (pureBeh : HandlerBeh String Nat)) 10
          (((EventEmitter.empty.on' (.keys ["a", "b"]) 7 false 10).on'
            (.keys ["a"]) 8 false 10).unsubscribeOn ["a", "b"] 7) calls).2 7 = 0 :=
  unsubscribe_removes_and_idempotent
    ((EventEmitter.empty.on' (.keys ["a", "b"]) 7 false 10).on' (.keys ["a"]) 8 false 10)
    ["a", "b"] 7 (fun _ => pureBeh) 10
    (by
      intro ent hent
      rw [show (((EventEmitter.empty.on' (OnTarget.keys ["a", "b"]) 7 false 10).on'
          (OnTarget.keys ["a"]) 8 false 10))._wildcard
          = ([] : List (ListenerEntry Nat)) from rfl] at hent
      exact absurd hent (List.not_mem_nil ent))
    (by
      intro k' hk' ent hent
      have ha : ¬ ("a" : String) = k' := by
        intro hc
        exact hk' (by rw [← hc]; decide)
      have hb2 : ¬ ("b" : String) = k' := by
        intro hc
        exact hk' (by rw [← hc]; decide)
      have hnil : (((EventEmitter.empty.on' (OnTarget.keys ["a", "b"]) 7 false 10).on'
          (OnTarget.keys ["a"]) 8 false 10)).entriesOf k' = [] := by
        unfold EventEmitter.entriesOf
        rw [show (((EventEmitter.empty.on' (OnTarget.keys ["a", "b"]) 7 false 10).on'
            (OnTarget.keys ["a"]) 8 false 10))._events
            = [("a", [⟨7, false, 10, 0⟩, ⟨8, false, 10, 1⟩]),
               ("b", [⟨7, false, 10, 0⟩])] from rfl]
        simp [evLookup, ha, hb2]
      rw [hnil] at hent
      exact absurd hent (List.not_mem_nil ent))
    (fun _ => pureBeh_offOnly)
    ⟨by decide,
     by
      intro k l hlk
      have hmem := evLookup_mem hlk
      rw [show ((((EventEmitter.empty.on' (OnTarget.keys ["a", "b"]) 7 false 10).on'
          (OnTarget.keys ["a"]) 8 false 10)).unsubscribeOn ["a", "b"] 7)._events
          = [("a", [⟨8, false, 10, 1⟩]), ("b", [])] from rfl] at hmem
      rcases List.mem_cons.mp hmem with heq1 | hmem2
      · injection heq1 with h1 h2
        rw [h2]
        decide
      · injection List.mem_singleton.mp hmem2 with h1 h2
        rw [h2]
        decide,
     by decide⟩
